import Mathlib

/- Shallow embedding of the node composer of telegrinder
   (src/telegrinder/node/composer.py): dependency resolution of typed
   "nodes" for a handler, with three caching scopes, generator-backed
   resumable producers, and a recursive close operation.

   Modelling conventions:
   * Node types are identified by natural numbers; an `Env` maps each
     identifier to its descriptor (sub-nodes, context-annotation keys,
     scope attribute, generator-ness, and produce behaviour).  The
     descriptor accessors (`get_sub_nodes`, `get_context_annotations`,
     `scope`, `is_generator`, `compose`) live in node/base.py, which is
     not part of the sources; their shapes are modelled from the spec.
   * Machine state `St` carries the per-event node store (the dict held
     under the "node_ctx" context key), the process-wide `_value`
     attributes of GLOBAL nodes, a fresh-generator counter, and a trace
     of observable events (producer invocations, context lookups,
     generator resumptions).
   * The cooperative single-threaded asyncio scheduling is modelled
     deterministically: the asyncio.Task objects created by
     compose_nodes run to completion one after another, in creation
     order, while `asyncio.gather` waits; `gather` then reports the
     first failure in that order.  Tasks are never cancelled, so the
     side effects of every task are reflected in the final state, as
     they eventually are in the event loop.
   * An async generator handle is modelled by an identifier plus the
     number of yields it still has after the initial `asend(None)`
     (a two-phase producer in the sense of the spec has 0 remaining
     yields: resuming it runs the finalization and raises
     StopAsyncIteration).  Exhausting the recursion fuel corresponds to
     Python's RecursionError on a cyclic node graph: an exception that
     is neither ComposeError nor UnwrapError.
-/

abbrev NodeId := Nat

abbrev Value := Nat

/-- Caching scopes of node types (NodeScope in node/base.py). -/
inductive NodeScope where
  | per_call
  | per_event
  | global
deriving DecidableEq, Repr

/-- Failures a producer can raise: ComposeError, UnwrapError, or any
other exception (RecursionError from a cyclic graph is `fuelError`). -/
inductive Exc where
  | composeError
  | unwrapError
  | fuelError
  | other (code : Nat)
deriving DecidableEq, Repr

/-- A live async-generator handle: its identity and how many further
yields it performs after the initial `asend(None)`. -/
structure Gen where
  id : Nat
  remaining : Nat
deriving DecidableEq, Repr

/-- NodeSession from composer.py: the node type that produced it (absent
for pure context values), the produced value, the resolved
sub-sessions, and the optional live generator handle. -/
inductive NodeSession where
  | mk (node_type : Option NodeId) (value : Value)
      (subnodes : List (String × NodeSession)) (generator : Option Gen)

def NodeSession.node_type : NodeSession → Option NodeId
  | .mk nt _ _ _ => nt

def NodeSession.value : NodeSession → Value
  | .mk _ v _ _ => v

def NodeSession.subnodes : NodeSession → List (String × NodeSession)
  | .mk _ _ subs _ => subs

def NodeSession.generator : NodeSession → Option Gen
  | .mk _ _ _ g => g

/-- Observable events of a run: a producer invocation (`node.compose`),
a context-annotation lookup, and a generator resumption
(`generator.asend(sent)` during close). -/
inductive Event where
  | compose (node : NodeId)
  | ctx_lookup (key : Nat)
  | resume (gen : Nat) (sent : Option Value)
deriving DecidableEq, Repr

/-- Modelled from the spec: the node descriptor metadata (`scope`
attribute, `get_sub_nodes`, `get_context_annotations`, `is_generator`,
and the `compose` producer) is declared in node/base.py, which is not
among the sources; the spec (section 3) describes it as immutable
registration metadata.  `produce` models
`compose` run up to its first yield (for generator nodes) or to its
return (for plain nodes); `gen_extra_yields` is the number of yields
the generator performs after the first one (0 for a two-phase
producer). -/
structure NodeDef where
  scope : Option NodeScope
  sub_nodes : List (String × NodeId)
  context_keys : List (String × Nat)
  is_generator : Bool
  gen_extra_yields : Nat
  produce : List (String × Value) → Except Exc Value

/-- Modelled from the spec: `ctxLookup` models
`compose_context_annotation` (node/base.py, not among the sources) — a
plain context-annotation value is resolved by direct context lookup,
with no production; the lookup can fail (for example with UnwrapError
on an absent optional value).  `nodes` is the registry of node
descriptors. -/
structure Env where
  nodes : NodeId → NodeDef
  ctxLookup : Nat → Except Exc Value

/-- Mutable state threaded through a run: the per-event node store
(`ctx["node_ctx"]`), the process-wide `_value` attributes of GLOBAL
node classes, the fresh-generator counter, and the event trace. -/
structure St where
  node_ctx : List (NodeId × NodeSession)
  global_store : List (NodeId × NodeSession)
  next_gen : Nat
  trace : List Event

def St.empty : St := ⟨[], [], 0, []⟩

/-- Association-list lookup; a newly written binding is consed on the
front, so the first hit is the most recent one (dict semantics). -/
def lookupBy {κ α : Type} [DecidableEq κ] : List (κ × α) → κ → Option α
  | [], _ => none
  | (k, v) :: rest, key => if k = key then some v else lookupBy rest key

def pushEvent (st : St) (e : Event) : St :=
  { st with trace := st.trace ++ [e] }

def pushEvents (st : St) (es : List Event) : St :=
  { st with trace := st.trace ++ es }

def scopeOfNode (env : Env) (n : NodeId) : Option NodeScope :=
  (env.nodes n).scope

/-- The early-return guard of NodeSession.close (line 135): a session is
skipped when its node type is present and that node's `scope`
attribute (None when absent) is not in the requested scopes. -/
def closeGuard (env : Env) (nt : Option NodeId) (scopes : List NodeScope) : Bool :=
  match nt with
  | none => false
  | some t =>
    match scopeOfNode env t with
    | none => true
    | some sc => !(decide (sc ∈ scopes))

mutual

/-- NodeSession.close (composer.py lines 130-146): skip when the owning
node's scope is outside `scopes`; otherwise close all sub-sessions
(each with close value None), then resume the own generator with
`with_value`; StopAsyncIteration (no remaining yields) clears the
handle.  Returns the updated session and the emitted events. -/
def NodeSession.close (env : Env) (with_value : Option Value)
    (scopes : List NodeScope) : NodeSession → NodeSession × List Event
  | .mk nt val subs g =>
    if closeGuard env nt scopes then (.mk nt val subs g, [])
    else
      let sub := closeSubnodes env scopes subs
      match g with
      | none => (.mk nt val sub.1 none, sub.2)
      | some gen =>
        let g' : Option Gen :=
          if gen.remaining = 0 then none else some ⟨gen.id, gen.remaining - 1⟩
        (.mk nt val sub.1 g', sub.2 ++ [.resume gen.id with_value])

/-- The `for subnode in self.subnodes.values(): await subnode.close(scopes=scopes)`
loop: every sub-session is closed with close value None. -/
def closeSubnodes (env : Env) (scopes : List NodeScope) :
    List (String × NodeSession) → List (String × NodeSession) × List Event
  | [] => ([], [])
  | (n, s) :: rest =>
    let c := NodeSession.close env none scopes s
    let r := closeSubnodes env scopes rest
    ((n, c.1) :: r.1, c.2 ++ r.2)

end

/-- NodeCollection from composer.py: the bundle of resolved sessions. -/
structure NodeCollection where
  sessions : List (String × NodeSession)

def NodeCollection.values (c : NodeCollection) : List (String × Value) :=
  c.sessions.map (fun p => (p.1, p.2.value))

/-- NodeCollection.close_all (lines 161-167): close every session of the
collection, passing `with_value` to each of them. -/
def closeSessionList (env : Env) (with_value : Option Value)
    (scopes : List NodeScope) :
    List (String × NodeSession) → List (String × NodeSession) × List Event
  | [] => ([], [])
  | (n, s) :: rest =>
    let c := NodeSession.close env with_value scopes s
    let r := closeSessionList env with_value scopes rest
    ((n, c.1) :: r.1, c.2 ++ r.2)

def NodeCollection.close_all (env : Env) (with_value : Option Value)
    (scopes : List NodeScope) (c : NodeCollection) :
    NodeCollection × List Event :=
  let r := closeSessionList env with_value scopes c.sessions
  (⟨r.1⟩, r.2)

/-- The sub-node resolution loop of compose_node (lines 41-48),
abstracted over the recursive call `rec` (the recursion is driven by
the fuel of compose_node).  A sub-node already present in the per-event
store is reused; otherwise it is composed, and, when its scope is
PER_EVENT, the fresh session is stored into the per-event store before
the next sub-node is handled. -/
def resolveSubnodes (env : Env) (rec : NodeId → St → Except Exc NodeSession × St) :
    List (String × NodeId) → St → Except Exc (List (String × NodeSession)) × St
  | [], st => (.ok [], st)
  | (name, sub) :: rest, st =>
    match lookupBy st.node_ctx sub with
    | some sess =>
      let r := resolveSubnodes env rec rest st
      (r.1.map (fun ctxs => (name, sess) :: ctxs), r.2)
    | none =>
      let c := rec sub st
      match c.1 with
      | .error e => (.error e, c.2)
      | .ok sess =>
        let st2 :=
          if scopeOfNode env sub = some NodeScope.per_event then
            { c.2 with node_ctx := (sub, sess) :: c.2.node_ctx }
          else c.2
        let r := resolveSubnodes env rec rest st2
        (r.1.map (fun ctxs => (name, sess) :: ctxs), r.2)

/-- The context-annotation loop of compose_node (lines 50-53): each
declared key is looked up directly in the ambient context and wrapped
into a session with no node type, no sub-sessions and no generator; a
failed lookup aborts the whole composition. -/
def resolveCtxKeys (env : Env) :
    List (String × Nat) → St → Except Exc (List (String × NodeSession)) × St
  | [], st => (.ok [], st)
  | (name, key) :: rest, st =>
    let st1 := pushEvent st (.ctx_lookup key)
    match env.ctxLookup key with
    | .error e => (.error e, st1)
    | .ok v =>
      let r := resolveCtxKeys env rest st1
      (r.1.map (fun ctxs => (name, .mk none v [] none) :: ctxs), r.2)

/-- compose_node (composer.py lines 32-62): resolve the declared
sub-nodes (reusing the per-event store), then the declared
context-annotation keys, then invoke the producer; a generator node
keeps a live handle in the returned session.  The fuel argument bounds
the recursion depth: its exhaustion models Python's RecursionError on
a cyclic node graph. -/
def compose_node (env : Env) : Nat → NodeId → St → Except Exc NodeSession × St
  | 0, _, st => (.error .fuelError, st)
  | fuel + 1, n, st =>
    let nd := env.nodes n
    let rs := resolveSubnodes env (compose_node env fuel) nd.sub_nodes st
    match rs.1 with
    | .error e => (.error e, rs.2)
    | .ok subCtx =>
      let ra := resolveCtxKeys env nd.context_keys rs.2
      match ra.1 with
      | .error e => (.error e, ra.2)
      | .ok annCtx =>
        let context := subCtx ++ annCtx
        let st3 := pushEvent ra.2 (.compose n)
        match nd.produce (context.map (fun p => (p.1, p.2.value))) with
        | .error e => (.error e, st3)
        | .ok v =>
          if nd.is_generator then
            (.ok (.mk (some n) v context (some ⟨st3.next_gen, nd.gen_extra_yields⟩)),
             { st3 with next_gen := st3.next_gen + 1 })
          else
            (.ok (.mk (some n) v context none), st3)

/-- The partition loop of compose_nodes (lines 76-86): each requested
node either short-circuits to a cached session (PER_EVENT store, or the
`_value` attribute for GLOBAL nodes) or becomes an asyncio.Task.  The
caches are only read here: the tasks have not started yet. -/
def partitionNodes (env : Env) :
    List (String × NodeId) → List (NodeId × NodeSession) →
    List (NodeId × NodeSession) →
    List (String × NodeSession) × List (String × NodeId)
  | [], _, _ => ([], [])
  | (name, nt) :: rest, nctx, gstore =>
    let r := partitionNodes env rest nctx gstore
    match scopeOfNode env nt with
    | some NodeScope.per_event =>
      match lookupBy nctx nt with
      | some sess => ((name, sess) :: r.1, r.2)
      | none => (r.1, (name, nt) :: r.2)
    | some NodeScope.global =>
      match lookupBy gstore nt with
      | some sess => ((name, sess) :: r.1, r.2)
      | none => (r.1, (name, nt) :: r.2)
    | _ => (r.1, (name, nt) :: r.2)

/-- The created tasks, run to completion in creation order (the
deterministic schedule of the cooperative model); every task runs even
if an earlier one failed, since gather does not cancel the rest. -/
def runTasks (env : Env) (fuel : Nat) :
    List (String × NodeId) → St → List (String × Except Exc NodeSession) × St
  | [], st => ([], st)
  | (name, nt) :: rest, st =>
    let r := compose_node env fuel nt st
    let rs := runTasks env fuel rest r.2
    ((name, r.1) :: rs.1, rs.2)

/-- The first failure among the task outcomes, in completion order:
the exception `asyncio.gather` raises. -/
def firstErr {α : Type} : List (Except Exc α) → Option Exc
  | [] => none
  | .ok _ :: rest => firstErr rest
  | .error e :: _ => some e

/-- run_node_composers (lines 23-29): gather the tasks under
`suppress(ComposeError, UnwrapError)`; True when all succeed, False
when the first failure is a ComposeError or UnwrapError, and any other
exception propagates. -/
def run_node_composers {α : Type} (results : List (Except Exc α)) : Except Exc Bool :=
  match firstErr results with
  | none => .ok true
  | some .composeError => .ok false
  | some .unwrapError => .ok false
  | some e => .error e

/-- `task.result()` extraction for a gather that reported success:
keeps the successful sessions (all of them, in that case). -/
def extractOk : List (String × Except Exc NodeSession) → List (String × NodeSession)
  | [] => []
  | (name, .ok sess) :: rest => (name, sess) :: extractOk rest
  | (_, .error _) :: rest => extractOk rest

/-- The cache-update loop of compose_nodes (lines 92-101): in task
creation order, a PER_EVENT session is stored into the per-event store
under its node type, and a GLOBAL session into the node class's
`_value` attribute.  (The `assert session.node_type is not None` always
holds: compose_node returns sessions carrying their node id.) -/
def storeOne (env : Env) (sess : NodeSession) (st : St) : St :=
  match sess.node_type with
  | none => st
  | some nt =>
    match scopeOfNode env nt with
    | some NodeScope.per_event => { st with node_ctx := (nt, sess) :: st.node_ctx }
    | some NodeScope.global => { st with global_store := (nt, sess) :: st.global_store }
    | _ => st

def storeScoped (env : Env) :
    List (String × NodeSession) → St → St
  | [], st => st
  | (_, sess) :: rest, st => storeScoped env rest (storeOne env sess st)

/-- The context-annotation tasks of compose_nodes (lines 105-108), run
in creation order.  `compose_context_annotation` is modelled from the
spec (it lives in node/base.py, not among the sources): a direct
context lookup wrapped into a session with no node type, no
sub-sessions and no generator. -/
def runAnnTasks (env : Env) :
    List (String × Nat) → St → List (String × Except Exc NodeSession) × St
  | [], st => ([], st)
  | (name, key) :: rest, st =>
    let st1 := pushEvent st (.ctx_lookup key)
    let r : Except Exc NodeSession :=
      match env.ctxLookup key with
      | .ok v => .ok (.mk none v [] none)
      | .error e => .error e
    let rs := runAnnTasks env rest st1
    ((name, r) :: rs.1, rs.2)

/-- compose_nodes (composer.py lines 65-117).  Partition the requested
nodes into cache hits and tasks; run the tasks; on a suppressed failure
close the sessions collected so far (only the cache hits at this point)
and return None; on success store the newly produced cacheable
sessions; then resolve the plain context annotations the same way; on
success return the assembled collection.  The updated sessions of a
failure-path close_all are discarded: they are local to the aborted
call, and sessions shared with the caches are skipped by the close
guard. -/
def compose_nodes (env : Env) (fuel : Nat) (nodes : List (String × NodeId))
    (context_keys : List (String × Nat)) (st : St) :
    Except Exc (Option NodeCollection) × St :=
  let pr := partitionNodes env nodes st.node_ctx st.global_store
  let rt := runTasks env fuel pr.2 st
  match run_node_composers (rt.1.map Prod.snd) with
  | .error e => (.error e, rt.2)
  | .ok false =>
    let c := NodeCollection.close_all env none [NodeScope.per_call] ⟨pr.1⟩
    (.ok none, pushEvents rt.2 c.2)
  | .ok true =>
    let produced := extractOk rt.1
    let st2 := storeScoped env produced rt.2
    let sessions := pr.1 ++ produced
    match context_keys with
    | [] => (.ok (some ⟨sessions⟩), st2)
    | _ :: _ =>
      let ar := runAnnTasks env context_keys st2
      match run_node_composers (ar.1.map Prod.snd) with
      | .error e => (.error e, ar.2)
      | .ok false =>
        let c := NodeCollection.close_all env none [NodeScope.per_call] ⟨sessions⟩
        (.ok none, pushEvents ar.2 c.2)
      | .ok true => (.ok (some ⟨sessions ++ extractOk ar.1⟩), ar.2)

theorem lookupBy_cons_ne {κ α : Type} [DecidableEq κ] (k key : κ) (v : α)
    (l : List (κ × α)) (h : k ≠ key) :
    lookupBy ((k, v) :: l) key = lookupBy l key := by
  simp [lookupBy, h]

theorem lookupBy_append_some {κ α : Type} [DecidableEq κ] (l1 l2 : List (κ × α))
    (k : κ) (v : α) (h : lookupBy l1 k = some v) :
    lookupBy (l1 ++ l2) k = some v := by
  induction l1 with
  | nil => simp [lookupBy] at h
  | cons p rest ih =>
    obtain ⟨a, b⟩ := p
    by_cases hk : a = k
    · subst hk
      simp [lookupBy] at h ⊢
      exact h
    · simp only [List.cons_append, lookupBy, if_neg hk] at h ⊢
      exact ih h

/-- Structural induction over the session tree (the nested inductive
needs a hand-rolled recursor). -/
theorem NodeSession.my_ind (P : NodeSession → Prop)
    (h : ∀ nt v subs g, (∀ p ∈ subs, P p.2) → P (.mk nt v subs g)) :
    ∀ s, P s
  | .mk nt v subs g => h nt v subs g (fun p hp => NodeSession.my_ind P h p.2)
termination_by s => sizeOf s
decreasing_by
  have h1 := List.sizeOf_lt_of_mem hp
  have h2 : sizeOf p.2 < sizeOf p := by cases p; simp
  simp only [NodeSession.mk.sizeOf_spec]
  omega

theorem closeGuard_true_of_notin (env : Env) (nt : NodeId) (sc : NodeScope)
    (scopes : List NodeScope) (h1 : scopeOfNode env nt = some sc)
    (h2 : sc ∉ scopes) : closeGuard env (some nt) scopes = true := by
  simp [closeGuard, h1, h2]

theorem closeSessionList_noop (env : Env) (v : Option Value)
    (scopes : List NodeScope) (sessions : List (String × NodeSession))
    (h : ∀ p ∈ sessions, NodeSession.close env v scopes p.2 = (p.2, [])) :
    closeSessionList env v scopes sessions = (sessions, []) := by
  induction sessions with
  | nil => simp [closeSessionList]
  | cons p rest ih =>
    simp only [closeSessionList]
    rw [h p (by simp), ih (fun q hq => h q (by simp [hq]))]
    simp

theorem close_skips_out_of_scope (env : Env) (v : Option Value)
    (scopes : List NodeScope) (s : NodeSession) (nt : NodeId) (sc : NodeScope)
    (hnt : s.node_type = some nt) (hsc : scopeOfNode env nt = some sc)
    (hmem : sc ∉ scopes) : NodeSession.close env v scopes s = (s, []) := by
  cases s with
  | mk nt' val subs g =>
    simp [NodeSession.node_type] at hnt
    subst hnt
    rw [NodeSession.close]
    simp [closeGuard_true_of_notin env nt sc scopes hsc hmem]

/-- Claim C7: a session whose owning node's scope is not among the
requested scopes is returned by close untouched, with no generator
resumed and no event emitted; consequently close_all with the default
scopes argument (only PER_CALL) leaves a collection of PER_EVENT and
GLOBAL sessions (and their handles) entirely unchanged. -/
theorem claim_C7 (env : Env) (v : Option Value) (scopes : List NodeScope) :
    (∀ (s : NodeSession) (nt : NodeId) (sc : NodeScope),
      s.node_type = some nt → scopeOfNode env nt = some sc → sc ∉ scopes →
      NodeSession.close env v scopes s = (s, [])) ∧
    (∀ c : NodeCollection,
      (∀ p ∈ c.sessions, ∃ nt sc, p.2.node_type = some nt ∧
        scopeOfNode env nt = some sc ∧
        (sc = NodeScope.per_event ∨ sc = NodeScope.global)) →
      NodeCollection.close_all env v [NodeScope.per_call] c = (c, [])) := by
  constructor
  · exact fun s nt sc hnt hsc hmem =>
      close_skips_out_of_scope env v scopes s nt sc hnt hsc hmem
  · intro c hc
    obtain ⟨sessions⟩ := c
    simp only [NodeCollection.close_all]
    rw [closeSessionList_noop]
    intro p hp
    obtain ⟨nt, sc, h1, h2, h3⟩ := hc p hp
    refine close_skips_out_of_scope env v [NodeScope.per_call] p.2 nt sc h1 h2 ?_
    rcases h3 with h3 | h3 <;> subst h3 <;> simp

/-- Concrete witness for claim C7: a PER_EVENT generator session is not
finalized by a default-scoped close_all. -/
theorem claim_C7_witness :
    (scopeOfNode ⟨fun _ => ⟨some NodeScope.per_event, [], [], true, 0, fun _ => .ok 4⟩,
        fun _ => .ok 0⟩ 0 = some NodeScope.per_event ∧
      NodeScope.per_event ∉ [NodeScope.per_call]) ∧
    NodeCollection.close_all ⟨fun _ => ⟨some NodeScope.per_event, [], [], true, 0, fun _ => .ok 4⟩,
        fun _ => .ok 0⟩ none [NodeScope.per_call]
        ⟨[("x", NodeSession.mk (some 0) 4 [] (some ⟨0, 0⟩))]⟩
      = (⟨[("x", NodeSession.mk (some 0) 4 [] (some ⟨0, 0⟩))]⟩, []) := by
  refine ⟨⟨rfl, by simp⟩, ?_⟩
  exact (claim_C7 ⟨fun _ => ⟨some NodeScope.per_event, [], [], true, 0, fun _ => .ok 4⟩,
      fun _ => .ok 0⟩ none [NodeScope.per_call]).2
    ⟨[("x", NodeSession.mk (some 0) 4 [] (some ⟨0, 0⟩))]⟩
    (by
      intro p hp
      simp at hp
      subst hp
      exact ⟨0, NodeScope.per_event, rfl, rfl, Or.inl rfl⟩)

theorem closeSubnodes_events (env : Env) (scopes : List NodeScope)
    (subs : List (String × NodeSession))
    (H : ∀ p ∈ subs, ∀ g sent,
      Event.resume g sent ∈ (NodeSession.close env none scopes p.2).2 → sent = none) :
    ∀ g sent, Event.resume g sent ∈ (closeSubnodes env scopes subs).2 → sent = none := by
  induction subs with
  | nil => simp [closeSubnodes]
  | cons p rest ih =>
    intro g sent hmem
    simp only [closeSubnodes, List.mem_append] at hmem
    rcases hmem with hmem | hmem
    · exact H p (by simp) g sent hmem
    · exact ih (fun q hq => H q (by simp [hq])) g sent hmem

theorem close_none_events (env : Env) (scopes : List NodeScope) :
    ∀ s : NodeSession, ∀ g sent,
      Event.resume g sent ∈ (NodeSession.close env none scopes s).2 → sent = none := by
  apply NodeSession.my_ind
    (P := fun s => ∀ g sent,
      Event.resume g sent ∈ (NodeSession.close env none scopes s).2 → sent = none)
  intro nt v subs g IH g0 sent hmem
  rw [NodeSession.close] at hmem
  by_cases hg : closeGuard env nt scopes
  · simp [hg] at hmem
  · simp only [hg, Bool.false_eq_true, if_false] at hmem
    cases g with
    | none => exact closeSubnodes_events env scopes subs IH g0 sent hmem
    | some gen =>
      simp only [List.mem_append] at hmem
      rcases hmem with hmem | hmem
      · exact closeSubnodes_events env scopes subs IH g0 sent hmem
      · simp at hmem
        exact hmem.2

/-- Claim C9: the close value is not propagated downward.  Every
generator resumed from inside the sub-session tree receives close value
None; only the session's own generator receives `with_value`.  And
close_all passes `with_value` to each top-level session of the
collection: its event stream is the concatenation of the per-session
closes, each invoked with `with_value`. -/
theorem claim_C9 (env : Env) (v : Option Value) (scopes : List NodeScope) :
    (∀ (s : NodeSession) (g : Nat) (sent : Option Value),
      Event.resume g sent ∈ (NodeSession.close env v scopes s).2 →
      sent = none ∨ ∃ gen, s.generator = some gen ∧ g = gen.id ∧ sent = v) ∧
    (∀ l : List (String × NodeSession),
      (closeSessionList env v scopes l).2
        = (l.map (fun p => (NodeSession.close env v scopes p.2).2)).flatten) := by
  constructor
  · intro s g0 sent hmem
    cases s with
    | mk nt val subs g =>
      rw [NodeSession.close] at hmem
      by_cases hg : closeGuard env nt scopes
      · simp [hg] at hmem
      · simp only [hg, Bool.false_eq_true, if_false] at hmem
        cases g with
        | none =>
          exact Or.inl (closeSubnodes_events env scopes subs
            (fun p _ => close_none_events env scopes p.2) g0 sent hmem)
        | some gen =>
          simp only [List.mem_append] at hmem
          rcases hmem with hmem | hmem
          · exact Or.inl (closeSubnodes_events env scopes subs
              (fun p _ => close_none_events env scopes p.2) g0 sent hmem)
          · simp at hmem
            exact Or.inr ⟨gen, rfl, hmem.1, hmem.2⟩
  · intro l
    induction l with
    | nil => simp [closeSessionList]
    | cons p rest ih => simp [closeSessionList, ih]

/-- An environment and a parent/child session pair used by the C9
witness: both sessions are PER_CALL-scoped, both hold a live two-phase
generator handle. -/
def envC9w : Env :=
  ⟨fun _ => ⟨some NodeScope.per_call, [], [], true, 0, fun _ => .ok 4⟩, fun _ => .ok 0⟩

def sessC9w : NodeSession :=
  NodeSession.mk (some 0) 4 [("c", NodeSession.mk (some 0) 5 [] (some ⟨1, 0⟩))] (some ⟨0, 0⟩)

/-- Concrete witness for claim C9: applied to a parent closed with value
7 whose child's generator (id 1) is resumed during the sub-session
pass, the theorem reports that the child was sent None (the right
disjunct is impossible: the parent's own generator has id 0). -/
theorem claim_C9_witness :
    (none : Option Value) = none ∨
      ∃ gen, sessC9w.generator = some gen ∧ 1 = gen.id ∧ (none : Option Value) = some 7 :=
  (claim_C9 envC9w (some 7) [NodeScope.per_call]).1 sessC9w 1 none
    (by simp [sessC9w, envC9w, NodeSession.close, closeSubnodes, closeGuard, scopeOfNode])

mutual

/-- A session tree is two-phase when every live generator handle in it
has no yields left beyond the finalization phase — the shape the spec
prescribes for resumable producers (section 4.3: phase one yields the
value, phase two runs finalization and terminates). -/
def twoPhase : NodeSession → Bool
  | .mk _ _ subs g =>
    (match g with
     | none => true
     | some gen => decide (gen.remaining = 0)) && twoPhaseSubnodes subs

def twoPhaseSubnodes : List (String × NodeSession) → Bool
  | [] => true
  | (_, s) :: rest => twoPhase s && twoPhaseSubnodes rest

end

theorem twoPhase_mk (nt : Option NodeId) (v : Value)
    (subs : List (String × NodeSession)) (g : Option Gen) :
    twoPhase (.mk nt v subs g)
      = ((match g with
          | none => true
          | some gen => decide (gen.remaining = 0)) && twoPhaseSubnodes subs) := by
  rw [twoPhase.eq_def]

theorem twoPhaseSubnodes_cons (p : String × NodeSession)
    (rest : List (String × NodeSession)) :
    twoPhaseSubnodes (p :: rest) = (twoPhase p.2 && twoPhaseSubnodes rest) := by
  obtain ⟨a, b⟩ := p
  rw [twoPhaseSubnodes.eq_def]

theorem twoPhaseSubnodes_mem {subs : List (String × NodeSession)}
    (h : twoPhaseSubnodes subs = true) : ∀ p ∈ subs, twoPhase p.2 = true := by
  induction subs with
  | nil => simp
  | cons q rest ih =>
    intro p hp
    rw [twoPhaseSubnodes_cons, Bool.and_eq_true] at h
    rcases List.mem_cons.mp hp with hp | hp
    · subst hp; exact h.1
    · exact ih h.2 p hp

theorem closeSubnodes_idem (env : Env) (scopes : List NodeScope)
    (subs : List (String × NodeSession))
    (H : ∀ p ∈ subs,
      NodeSession.close env none scopes (NodeSession.close env none scopes p.2).1
        = ((NodeSession.close env none scopes p.2).1, [])) :
    closeSubnodes env scopes (closeSubnodes env scopes subs).1
      = ((closeSubnodes env scopes subs).1, []) := by
  induction subs with
  | nil => simp [closeSubnodes]
  | cons p rest ih =>
    simp only [closeSubnodes]
    rw [H p (by simp), ih (fun q hq => H q (by simp [hq]))]
    simp

theorem close_idem_session (env : Env) (scopes : List NodeScope) :
    ∀ s : NodeSession, ∀ v : Option Value, twoPhase s = true →
      NodeSession.close env v scopes (NodeSession.close env v scopes s).1
        = ((NodeSession.close env v scopes s).1, []) := by
  apply NodeSession.my_ind
    (P := fun s => ∀ v : Option Value, twoPhase s = true →
      NodeSession.close env v scopes (NodeSession.close env v scopes s).1
        = ((NodeSession.close env v scopes s).1, []))
  intro nt val subs g IH v htp
  rw [twoPhase_mk, Bool.and_eq_true] at htp
  obtain ⟨hgen, hsubs⟩ := htp
  by_cases hg : closeGuard env nt scopes
  · rw [NodeSession.close]
    simp only [hg, if_true]
    rw [NodeSession.close]
    simp [hg]
  · have hsubidem := closeSubnodes_idem env scopes subs
      (fun p hp => IH p hp none (twoPhaseSubnodes_mem hsubs p hp))
    rw [NodeSession.close]
    simp only [hg, Bool.false_eq_true, if_false]
    cases g with
    | none =>
      rw [NodeSession.close]
      simp only [hg, Bool.false_eq_true, if_false]
      rw [hsubidem]
    | some gen =>
      simp only [decide_eq_true_eq] at hgen
      simp [hgen]
      rw [NodeSession.close]
      simp only [hg, Bool.false_eq_true, if_false]
      rw [hsubidem]

theorem closeSessionList_idem (env : Env) (v : Option Value)
    (scopes : List NodeScope) (sessions : List (String × NodeSession))
    (H : ∀ p ∈ sessions,
      NodeSession.close env v scopes (NodeSession.close env v scopes p.2).1
        = ((NodeSession.close env v scopes p.2).1, [])) :
    closeSessionList env v scopes (closeSessionList env v scopes sessions).1
      = ((closeSessionList env v scopes sessions).1, []) := by
  induction sessions with
  | nil => simp [closeSessionList]
  | cons p rest ih =>
    simp only [closeSessionList]
    rw [H p (by simp), ih (fun q hq => H q (by simp [hq]))]
    simp

/-- Claim C6: closing is idempotent.  For a session tree whose live
generator handles are two-phase (no yields left beyond finalization,
the shape the spec prescribes for resumable producers), a second close
with the same arguments resumes no generator and changes no state, and
likewise a second close_all on a collection: a handle that completed on
the first close, or is absent, makes the second close a no-op. -/
theorem claim_C6 (env : Env) (v : Option Value) (scopes : List NodeScope) :
    (∀ s : NodeSession, twoPhase s = true →
      NodeSession.close env v scopes (NodeSession.close env v scopes s).1
        = ((NodeSession.close env v scopes s).1, [])) ∧
    (∀ c : NodeCollection, (∀ p ∈ c.sessions, twoPhase p.2 = true) →
      NodeCollection.close_all env v scopes (NodeCollection.close_all env v scopes c).1
        = ((NodeCollection.close_all env v scopes c).1, [])) := by
  constructor
  · exact fun s h => close_idem_session env scopes s v h
  · intro c hc
    obtain ⟨sessions⟩ := c
    simp only [NodeCollection.close_all]
    rw [closeSessionList_idem env v scopes sessions
      (fun p hp => close_idem_session env scopes p.2 v (hc p hp))]

/-- Environment and collection for the C6 witness: one PER_CALL session
holding a live two-phase generator. -/
def envC6w : Env :=
  ⟨fun _ => ⟨some NodeScope.per_call, [], [], true, 0, fun _ => .ok 4⟩, fun _ => .ok 0⟩

def collC6w : NodeCollection :=
  ⟨[("x", NodeSession.mk (some 0) 4 [] (some ⟨0, 0⟩))]⟩

/-- Concrete witness for claim C6: a second close_all of a concrete
one-session collection is a no-op. -/
theorem claim_C6_witness :
    NodeCollection.close_all envC6w none [NodeScope.per_call]
        (NodeCollection.close_all envC6w none [NodeScope.per_call] collC6w).1
      = ((NodeCollection.close_all envC6w none [NodeScope.per_call] collC6w).1, []) :=
  (claim_C6 envC6w none [NodeScope.per_call]).2 collC6w
    (by
      intro p hp
      simp [collC6w] at hp
      subst hp
      rfl)

theorem resolveCtxKeys_state (env : Env) (anns : List (String × Nat)) :
    ∀ st : St,
      (resolveCtxKeys env anns st).2.node_ctx = st.node_ctx ∧
      (resolveCtxKeys env anns st).2.global_store = st.global_store ∧
      (resolveCtxKeys env anns st).2.next_gen = st.next_gen ∧
      ∃ evs, (resolveCtxKeys env anns st).2.trace = st.trace ++ evs ∧
        ∀ ev ∈ evs, ∃ key, ev = Event.ctx_lookup key := by
  induction anns with
  | nil =>
    intro st
    exact ⟨rfl, rfl, rfl, [], by simp [resolveCtxKeys], by simp⟩
  | cons a rest ih =>
    intro st
    obtain ⟨name, key⟩ := a
    obtain ⟨h1, h2, h3, evs, hevs, hall⟩ := ih (pushEvent st (.ctx_lookup key))
    simp only [resolveCtxKeys]
    cases hlk : env.ctxLookup key with
    | error e =>
      refine ⟨by simp [pushEvent], by simp [pushEvent], by simp [pushEvent],
        [Event.ctx_lookup key], by simp [pushEvent], by simp⟩
    | ok v =>
      refine ⟨by simpa [pushEvent] using h1, by simpa [pushEvent] using h2,
        by simpa [pushEvent] using h3, Event.ctx_lookup key :: evs, ?_, ?_⟩
      · refine hevs.trans ?_
        simp [pushEvent]
      · intro ev hev
        rcases List.mem_cons.mp hev with hev | hev
        · exact ⟨key, hev⟩
        · exact hall ev hev

theorem resolveCtxKeys_sessions (env : Env) (anns : List (String × Nat)) :
    ∀ (st : St) (ctxs : List (String × NodeSession)),
      (resolveCtxKeys env anns st).1 = .ok ctxs →
      ∀ p ∈ ctxs, p.2.node_type = none ∧ p.2.subnodes = [] ∧ p.2.generator = none := by
  induction anns with
  | nil =>
    intro st ctxs hc p hp
    simp only [resolveCtxKeys] at hc
    cases hc
    simp at hp
  | cons a rest ih =>
    intro st ctxs hc p hp
    obtain ⟨name, key⟩ := a
    simp only [resolveCtxKeys] at hc
    cases hlk : env.ctxLookup key with
    | error e => rw [hlk] at hc; cases hc
    | ok v =>
      rw [hlk] at hc
      simp only at hc
      cases hrest : (resolveCtxKeys env rest (pushEvent st (.ctx_lookup key))).1 with
      | error e => rw [hrest] at hc; cases hc
      | ok ctxs2 =>
        rw [hrest] at hc
        simp only [Except.map] at hc
        cases hc
        rcases List.mem_cons.mp hp with hp | hp
        · subst hp
          exact ⟨rfl, rfl, rfl⟩
        · exact ih (pushEvent st (.ctx_lookup key)) ctxs2 hrest p hp

theorem runAnnTasks_state (env : Env) (anns : List (String × Nat)) :
    ∀ st : St,
      (∀ p ∈ (runAnnTasks env anns st).1, ∀ sess, p.2 = .ok sess →
        sess.node_type = none ∧ sess.subnodes = [] ∧ sess.generator = none) ∧
      (runAnnTasks env anns st).2.node_ctx = st.node_ctx ∧
      (runAnnTasks env anns st).2.global_store = st.global_store ∧
      (runAnnTasks env anns st).2.next_gen = st.next_gen ∧
      (runAnnTasks env anns st).2.trace
        = st.trace ++ anns.map (fun p => Event.ctx_lookup p.2) := by
  induction anns with
  | nil =>
    intro st
    exact ⟨by simp [runAnnTasks], rfl, rfl, rfl, by simp [runAnnTasks]⟩
  | cons a rest ih =>
    intro st
    obtain ⟨name, key⟩ := a
    obtain ⟨ihsess, ih1, ih2, ih3, ih4⟩ := ih (pushEvent st (.ctx_lookup key))
    refine ⟨?_, by simpa [pushEvent] using ih1, by simpa [pushEvent] using ih2,
      by simpa [pushEvent] using ih3, ?_⟩
    · intro p hp sess hsess
      simp only [runAnnTasks, List.mem_cons] at hp
      rcases hp with hp | hp
      · subst hp
        simp only at hsess
        cases hlk : env.ctxLookup key with
        | ok v =>
          rw [hlk] at hsess
          cases hsess
          exact ⟨rfl, rfl, rfl⟩
        | error e => rw [hlk] at hsess; cases hsess
      · exact ihsess p hp sess hsess
    · have hstep : (pushEvent st (Event.ctx_lookup key)).trace
          ++ List.map (fun p => Event.ctx_lookup p.2) rest
          = st.trace ++ Event.ctx_lookup key :: List.map (fun p => Event.ctx_lookup p.2) rest := by
        simp [pushEvent]
      exact ih4.trans hstep

/-- Claim C8: a session produced for a plain context-annotation value
has an absent node type, an empty subsession mapping and no generator
handle; annotation resolution performs no production (its trace
extension holds only context-lookup events) and writes neither the
per-event store nor the global cache.  Stated for both annotation
sites: the top-level annotation tasks of compose_nodes and the
annotation loop of compose_node. -/
theorem claim_C8 (env : Env) (anns : List (String × Nat)) (st : St) :
    ((∀ p ∈ (runAnnTasks env anns st).1, ∀ sess, p.2 = .ok sess →
        sess.node_type = none ∧ sess.subnodes = [] ∧ sess.generator = none) ∧
      (runAnnTasks env anns st).2.node_ctx = st.node_ctx ∧
      (runAnnTasks env anns st).2.global_store = st.global_store ∧
      (runAnnTasks env anns st).2.next_gen = st.next_gen ∧
      (runAnnTasks env anns st).2.trace
        = st.trace ++ anns.map (fun p => Event.ctx_lookup p.2)) ∧
    ((∀ ctxs, (resolveCtxKeys env anns st).1 = .ok ctxs → ∀ p ∈ ctxs,
        p.2.node_type = none ∧ p.2.subnodes = [] ∧ p.2.generator = none) ∧
      (resolveCtxKeys env anns st).2.node_ctx = st.node_ctx ∧
      (resolveCtxKeys env anns st).2.global_store = st.global_store ∧
      (resolveCtxKeys env anns st).2.next_gen = st.next_gen ∧
      ∃ evs, (resolveCtxKeys env anns st).2.trace = st.trace ++ evs ∧
        ∀ ev ∈ evs, ∃ key, ev = Event.ctx_lookup key) :=
  ⟨runAnnTasks_state env anns st,
   fun ctxs hc => resolveCtxKeys_sessions env anns st ctxs hc,
   (resolveCtxKeys_state env anns st).1,
   (resolveCtxKeys_state env anns st).2.1,
   (resolveCtxKeys_state env anns st).2.2.1,
   (resolveCtxKeys_state env anns st).2.2.2⟩

/-- Environment for the C8 witness: context key 3 resolves to 9. -/
def envC8w : Env :=
  ⟨fun _ => ⟨some NodeScope.per_call, [], [], false, 0, fun _ => .ok 0⟩,
   fun k => if k = 3 then .ok 9 else .error .unwrapError⟩

/-- Concrete witness for claim C8: the session the annotation task built
for key 3 has no node type, no subsessions and no generator. -/
theorem claim_C8_witness :
    (NodeSession.mk none 9 [] none).node_type = none ∧
    (NodeSession.mk none 9 [] none).subnodes = [] ∧
    (NodeSession.mk none 9 [] none).generator = none :=
  (claim_C8 envC8w [("k", 3)] St.empty).1.1 ("k", .ok (NodeSession.mk none 9 [] none))
    (by simp [runAnnTasks, envC8w]) (NodeSession.mk none 9 [] none) rfl

/-- Claim C5: a node's producer runs only after its dependencies.  If
resolving the declared sub-nodes fails, compose_node returns exactly
that failure and its state — no producer invocation, no `compose`
event, is added for this node; likewise when a declared context-key
lookup fails after the sub-nodes resolved.  When compose_node
succeeds, the sub-nodes all resolved, every context key was looked up,
and the `compose n` event of this invocation is appended strictly
after the entire trace of those two phases. -/
theorem claim_C5 (env : Env) (fuel : Nat) (n : NodeId) (st : St) :
    (∀ e, (resolveSubnodes env (compose_node env fuel) (env.nodes n).sub_nodes st).1
        = .error e →
      compose_node env (fuel + 1) n st
        = (.error e,
           (resolveSubnodes env (compose_node env fuel) (env.nodes n).sub_nodes st).2)) ∧
    (∀ subCtx e,
      (resolveSubnodes env (compose_node env fuel) (env.nodes n).sub_nodes st).1
        = .ok subCtx →
      (resolveCtxKeys env (env.nodes n).context_keys
        (resolveSubnodes env (compose_node env fuel) (env.nodes n).sub_nodes st).2).1
        = .error e →
      compose_node env (fuel + 1) n st
        = (.error e,
           (resolveCtxKeys env (env.nodes n).context_keys
             (resolveSubnodes env (compose_node env fuel) (env.nodes n).sub_nodes st).2).2)) ∧
    (∀ sess st', compose_node env (fuel + 1) n st = (.ok sess, st') →
      ∃ subCtx annCtx,
        (resolveSubnodes env (compose_node env fuel) (env.nodes n).sub_nodes st).1
          = .ok subCtx ∧
        (resolveCtxKeys env (env.nodes n).context_keys
          (resolveSubnodes env (compose_node env fuel) (env.nodes n).sub_nodes st).2).1
          = .ok annCtx ∧
        st'.trace
          = (resolveCtxKeys env (env.nodes n).context_keys
              (resolveSubnodes env (compose_node env fuel) (env.nodes n).sub_nodes st).2).2.trace
            ++ [Event.compose n]) := by
  refine ⟨?_, ?_, ?_⟩
  · intro e he
    simp only [compose_node, he]
  · intro subCtx e hs he
    simp only [compose_node, hs, he]
  · intro sess st' h
    simp only [compose_node] at h
    cases hs : (resolveSubnodes env (compose_node env fuel) (env.nodes n).sub_nodes st).1 with
    | error e => rw [hs] at h; cases h
    | ok subCtx =>
      rw [hs] at h
      cases ha : (resolveCtxKeys env (env.nodes n).context_keys
          (resolveSubnodes env (compose_node env fuel) (env.nodes n).sub_nodes st).2).1 with
      | error e => rw [ha] at h; cases h
      | ok annCtx =>
        rw [ha] at h
        refine ⟨subCtx, annCtx, rfl, rfl, ?_⟩
        simp only at h
        cases hp : (env.nodes n).produce
            ((subCtx ++ annCtx).map (fun p => (p.1, p.2.value))) with
        | error e => rw [hp] at h; cases h
        | ok v =>
          rw [hp] at h
          by_cases hgen : (env.nodes n).is_generator
          · simp only [hgen, reduceIte] at h
            cases h
            simp [pushEvent]
          · simp only [hgen, Bool.false_eq_true, reduceIte] at h
            cases h
            simp [pushEvent]

/-- Environment for the C5 witness: node 0 declares sub-node 1 whose
producer raises ComposeError. -/
def envC5w : Env :=
  ⟨fun i =>
    if i = 0 then ⟨some NodeScope.per_call, [("s", 1)], [], false, 0, fun _ => .ok 0⟩
    else ⟨some NodeScope.per_call, [], [], false, 0, fun _ => .error .composeError⟩,
   fun _ => .ok 0⟩

/-- Concrete witness for claim C5: with sub-node 1 failing, compose_node
for node 0 returns that failure and the sub-resolution state — node 0's
producer was never invoked. -/
theorem claim_C5_witness :
    compose_node envC5w 2 0 St.empty
      = (.error Exc.composeError,
         (resolveSubnodes envC5w (compose_node envC5w 1)
           (envC5w.nodes 0).sub_nodes St.empty).2) :=
  (claim_C5 envC5w 1 0 St.empty).1 Exc.composeError rfl

theorem count_compose_append_of_no_compose (e : NodeId) (t evs : List Event)
    (h : ∀ ev ∈ evs, ∀ n, ev ≠ Event.compose n) :
    (t ++ evs).count (Event.compose e) = t.count (Event.compose e) := by
  rw [List.count_append]
  have : evs.count (Event.compose e) = 0 := by
    rw [List.count_eq_zero]
    intro hmem
    exact h _ hmem e rfl
  omega

theorem resolveCtxKeys_keep (env : Env) (anns : List (String × Nat)) (st : St)
    (e : NodeId) :
    lookupBy (resolveCtxKeys env anns st).2.node_ctx e = lookupBy st.node_ctx e ∧
    (resolveCtxKeys env anns st).2.trace.count (Event.compose e)
      = st.trace.count (Event.compose e) := by
  obtain ⟨h1, _, _, evs, hevs, hall⟩ := resolveCtxKeys_state env anns st
  refine ⟨by rw [h1], ?_⟩
  rw [hevs]
  refine count_compose_append_of_no_compose e st.trace evs ?_
  intro ev hmem n
  obtain ⟨key, hk⟩ := hall ev hmem
  simp [hk]

theorem resolveSubnodes_keep (env : Env)
    (rec : NodeId → St → Except Exc NodeSession × St) (e : NodeId) (s : NodeSession)
    (hrec : ∀ n st, lookupBy st.node_ctx e = some s → n ≠ e →
      lookupBy (rec n st).2.node_ctx e = some s ∧
      (rec n st).2.trace.count (Event.compose e) = st.trace.count (Event.compose e)) :
    ∀ (subs : List (String × NodeId)) (st : St),
      lookupBy st.node_ctx e = some s →
      lookupBy (resolveSubnodes env rec subs st).2.node_ctx e = some s ∧
      (resolveSubnodes env rec subs st).2.trace.count (Event.compose e)
        = st.trace.count (Event.compose e) := by
  intro subs
  induction subs with
  | nil => exact fun st h => ⟨h, rfl⟩
  | cons p rest ih =>
    intro st h
    obtain ⟨name, sub⟩ := p
    simp only [resolveSubnodes]
    cases hl : lookupBy st.node_ctx sub with
    | some sess => exact ih st h
    | none =>
      have hne : sub ≠ e := by
        intro hcontra
        rw [hcontra, h] at hl
        cases hl
      obtain ⟨hc1, hc2⟩ := hrec sub st h hne
      cases hres : (rec sub st).1 with
      | error err => exact ⟨hc1, hc2⟩
      | ok sess =>
        by_cases hpe : scopeOfNode env sub = some NodeScope.per_event
        · simp only [hpe, if_pos rfl]
          have hkeep : lookupBy ((sub, sess) :: (rec sub st).2.node_ctx) e = some s := by
            rw [lookupBy_cons_ne _ _ _ _ hne]
            exact hc1
          have := ih { (rec sub st).2 with node_ctx := (sub, sess) :: (rec sub st).2.node_ctx }
            hkeep
          exact ⟨this.1, this.2.trans hc2⟩
        · simp only [if_neg hpe]
          have := ih ((rec sub st).2) hc1
          exact ⟨this.1, this.2.trans hc2⟩

theorem compose_node_keep (env : Env) (e : NodeId) (s : NodeSession) :
    ∀ (fuel : Nat) (n : NodeId) (st : St),
      lookupBy st.node_ctx e = some s → n ≠ e →
      lookupBy (compose_node env fuel n st).2.node_ctx e = some s ∧
      (compose_node env fuel n st).2.trace.count (Event.compose e)
        = st.trace.count (Event.compose e) := by
  intro fuel
  induction fuel with
  | zero => exact fun n st h _ => ⟨h, rfl⟩
  | succ fuel ih =>
    intro n st h hne
    obtain ⟨hs1, hs2⟩ := resolveSubnodes_keep env (compose_node env fuel) e s ih
      (env.nodes n).sub_nodes st h
    obtain ⟨ha1, ha2⟩ := resolveCtxKeys_keep env (env.nodes n).context_keys
      (resolveSubnodes env (compose_node env fuel) (env.nodes n).sub_nodes st).2 e
    have ha1' := ha1.trans hs1
    have ha2' := ha2.trans hs2
    have hpush : (pushEvent (resolveCtxKeys env (env.nodes n).context_keys
          (resolveSubnodes env (compose_node env fuel) (env.nodes n).sub_nodes st).2).2
          (Event.compose n)).trace.count (Event.compose e)
        = st.trace.count (Event.compose e) := by
      simp only [pushEvent]
      rw [List.count_append]
      have : [Event.compose n].count (Event.compose e) = 0 := by
        simp [List.count_singleton]
        intro hcc
        exact absurd hcc hne
      omega
    simp only [compose_node]
    split
    · exact ⟨hs1, hs2⟩
    · split
      · exact ⟨ha1', ha2'⟩
      · split
        · exact ⟨ha1', hpush⟩
        · split
          · exact ⟨ha1', hpush⟩
          · exact ⟨ha1', hpush⟩

theorem partition_tasks_ne (env : Env) (e : NodeId) (s : NodeSession)
    (hsc : scopeOfNode env e = some NodeScope.per_event) :
    ∀ (nodes : List (String × NodeId)) (nctx gstore : List (NodeId × NodeSession)),
      lookupBy nctx e = some s →
      ∀ p ∈ (partitionNodes env nodes nctx gstore).2, p.2 ≠ e := by
  intro nodes
  induction nodes with
  | nil => intro nctx gstore h p hp; simp [partitionNodes] at hp
  | cons q rest ih =>
    intro nctx gstore h p hp
    obtain ⟨name, nt⟩ := q
    by_cases hnt : nt = e
    · subst hnt
      simp only [partitionNodes, hsc, h] at hp
      exact ih nctx gstore h p hp
    · simp only [partitionNodes] at hp
      cases hscn : scopeOfNode env nt with
      | none =>
        rw [hscn] at hp
        simp only [List.mem_cons] at hp
        rcases hp with hp | hp
        · subst hp; exact hnt
        · exact ih nctx gstore h p hp
      | some sc =>
        rw [hscn] at hp
        cases sc with
        | per_event =>
          cases hl : lookupBy nctx nt with
          | some sess =>
            rw [hl] at hp
            exact ih nctx gstore h p hp
          | none =>
            rw [hl] at hp
            simp only [List.mem_cons] at hp
            rcases hp with hp | hp
            · subst hp; exact hnt
            · exact ih nctx gstore h p hp
        | global =>
          cases hl : lookupBy gstore nt with
          | some sess =>
            rw [hl] at hp
            exact ih nctx gstore h p hp
          | none =>
            rw [hl] at hp
            simp only [List.mem_cons] at hp
            rcases hp with hp | hp
            · subst hp; exact hnt
            · exact ih nctx gstore h p hp
        | per_call =>
          simp only [List.mem_cons] at hp
          rcases hp with hp | hp
          · subst hp; exact hnt
          · exact ih nctx gstore h p hp

theorem partition_cached_lookup (env : Env) (e : NodeId) (s : NodeSession)
    (name : String) :
    ∀ (nodes : List (String × NodeId)) (nctx gstore : List (NodeId × NodeSession)),
      lookupBy nodes name = some e →
      ((scopeOfNode env e = some NodeScope.per_event ∧ lookupBy nctx e = some s) ∨
       (scopeOfNode env e = some NodeScope.global ∧ lookupBy gstore e = some s)) →
      lookupBy (partitionNodes env nodes nctx gstore).1 name = some s := by
  intro nodes
  induction nodes with
  | nil => intro nctx gstore h _; simp [lookupBy] at h
  | cons q rest ih =>
    intro nctx gstore h hcase
    obtain ⟨k, nt⟩ := q
    by_cases hk : k = name
    · subst hk
      simp only [lookupBy, if_pos rfl] at h
      cases h
      rcases hcase with ⟨hsc, hl⟩ | ⟨hsc, hl⟩
      · simp [partitionNodes, hsc, hl, lookupBy]
      · simp [partitionNodes, hsc, hl, lookupBy]
    · rw [lookupBy_cons_ne _ _ _ _ hk] at h
      have htail := ih nctx gstore h hcase
      simp only [partitionNodes]
      cases hscn : scopeOfNode env nt with
      | none => exact htail
      | some sc =>
        cases sc with
        | per_call => exact htail
        | per_event =>
          cases hl : lookupBy nctx nt with
          | some sess => rw [lookupBy_cons_ne _ _ _ _ hk]; exact htail
          | none => exact htail
        | global =>
          cases hl : lookupBy gstore nt with
          | some sess => rw [lookupBy_cons_ne _ _ _ _ hk]; exact htail
          | none => exact htail

theorem runTasks_keep (env : Env) (fuel : Nat) (e : NodeId) (s : NodeSession) :
    ∀ (tasks : List (String × NodeId)) (st : St),
      (∀ p ∈ tasks, p.2 ≠ e) →
      lookupBy st.node_ctx e = some s →
      lookupBy (runTasks env fuel tasks st).2.node_ctx e = some s ∧
      (runTasks env fuel tasks st).2.trace.count (Event.compose e)
        = st.trace.count (Event.compose e) := by
  intro tasks
  induction tasks with
  | nil => exact fun st _ h => ⟨h, rfl⟩
  | cons q rest ih =>
    intro st hne h
    obtain ⟨name, nt⟩ := q
    simp only [runTasks]
    obtain ⟨h1, h2⟩ := compose_node_keep env e s fuel nt st h (hne (name, nt) (by simp))
    obtain ⟨h3, h4⟩ := ih (compose_node env fuel nt st).2
      (fun p hp => hne p (by simp [hp])) h1
    exact ⟨h3, h4.trans h2⟩

theorem compose_node_nodeType (env : Env) :
    ∀ (fuel : Nat) (n : NodeId) (st : St) (sess : NodeSession),
      (compose_node env fuel n st).1 = .ok sess → sess.node_type = some n := by
  intro fuel n st sess h
  cases fuel with
  | zero => cases h
  | succ fuel =>
    simp only [compose_node] at h
    split at h
    · cases h
    · split at h
      · cases h
      · split at h
        · cases h
        · split at h
          · cases h; rfl
          · cases h; rfl

theorem runTasks_result_types (env : Env) (fuel : Nat) :
    ∀ (tasks : List (String × NodeId)) (st : St),
      ∀ p ∈ (runTasks env fuel tasks st).1, ∀ sess, p.2 = .ok sess →
        ∃ q ∈ tasks, sess.node_type = some q.2 := by
  intro tasks
  induction tasks with
  | nil => intro st p hp; simp [runTasks] at hp
  | cons q rest ih =>
    intro st p hp sess hsess
    obtain ⟨name, nt⟩ := q
    simp only [runTasks, List.mem_cons] at hp
    rcases hp with hp | hp
    · subst hp
      simp only at hsess
      exact ⟨(name, nt), by simp, compose_node_nodeType env fuel nt st sess hsess⟩
    · obtain ⟨q2, hq2, hq3⟩ := ih (compose_node env fuel nt st).2 p hp sess hsess
      exact ⟨q2, by simp [hq2], hq3⟩

theorem extractOk_mem :
    ∀ (l : List (String × Except Exc NodeSession)) (p : String × NodeSession),
      p ∈ extractOk l → (p.1, Except.ok p.2) ∈ l := by
  intro l
  induction l with
  | nil => intro p hp; simp [extractOk] at hp
  | cons q rest ih =>
    intro p hp
    obtain ⟨name, r⟩ := q
    cases r with
    | ok sess =>
      simp only [extractOk, List.mem_cons] at hp
      rcases hp with hp | hp
      · subst hp; simp
      · exact List.mem_cons_of_mem _ (ih p hp)
    | error err =>
      simp only [extractOk] at hp
      exact List.mem_cons_of_mem _ (ih p hp)

theorem storeOne_trace (env : Env) (sess : NodeSession) (st : St) :
    (storeOne env sess st).trace = st.trace := by
  cases hnt : sess.node_type with
  | none => simp [storeOne, hnt]
  | some nt =>
    cases hsc : scopeOfNode env nt with
    | none => simp [storeOne, hnt, hsc]
    | some sc => cases sc <;> simp [storeOne, hnt, hsc]

theorem storeScoped_trace (env : Env) :
    ∀ (l : List (String × NodeSession)) (st : St),
      (storeScoped env l st).trace = st.trace := by
  intro l
  induction l with
  | nil => exact fun st => rfl
  | cons q rest ih =>
    intro st
    obtain ⟨name, sess⟩ := q
    simp only [storeScoped]
    rw [ih, storeOne_trace]

theorem storeOne_global_eq (env : Env) (sess : NodeSession) (st : St)
    (hno : ∀ nt, sess.node_type = some nt →
      scopeOfNode env nt ≠ some NodeScope.global) :
    (storeOne env sess st).global_store = st.global_store := by
  cases hnt : sess.node_type with
  | none => simp [storeOne, hnt]
  | some nt =>
    cases hsc : scopeOfNode env nt with
    | none => simp [storeOne, hnt, hsc]
    | some sc =>
      cases sc with
      | per_call => simp [storeOne, hnt, hsc]
      | per_event => simp [storeOne, hnt, hsc]
      | global => exact absurd hsc (hno nt hnt)

theorem storeScoped_global_eq (env : Env) :
    ∀ (l : List (String × NodeSession)) (st : St),
      (∀ p ∈ l, ∀ nt, p.2.node_type = some nt →
        scopeOfNode env nt ≠ some NodeScope.global) →
      (storeScoped env l st).global_store = st.global_store := by
  intro l
  induction l with
  | nil => exact fun st _ => rfl
  | cons q rest ih =>
    intro st hno
    obtain ⟨name, sess⟩ := q
    simp only [storeScoped]
    rw [ih _ (fun p hp => hno p (by simp [hp])),
      storeOne_global_eq env sess st (hno (name, sess) (by simp))]

theorem storeOne_nodectx_keep (env : Env) (e : NodeId) (s : NodeSession)
    (sess : NodeSession) (st : St)
    (hne : ∀ nt, sess.node_type = some nt → nt ≠ e)
    (h : lookupBy st.node_ctx e = some s) :
    lookupBy (storeOne env sess st).node_ctx e = some s := by
  cases hnt : sess.node_type with
  | none => simpa [storeOne, hnt] using h
  | some nt =>
    cases hsc : scopeOfNode env nt with
    | none => simpa [storeOne, hnt, hsc] using h
    | some sc =>
      cases sc with
      | per_call => simpa [storeOne, hnt, hsc] using h
      | global => simpa [storeOne, hnt, hsc] using h
      | per_event =>
        simp only [storeOne, hnt, hsc]
        rw [lookupBy_cons_ne _ _ _ _ (hne nt hnt)]
        exact h

theorem storeScoped_nodectx_keep (env : Env) (e : NodeId) (s : NodeSession) :
    ∀ (l : List (String × NodeSession)) (st : St),
      (∀ p ∈ l, ∀ nt, p.2.node_type = some nt → nt ≠ e) →
      lookupBy st.node_ctx e = some s →
      lookupBy (storeScoped env l st).node_ctx e = some s := by
  intro l
  induction l with
  | nil => exact fun st _ h => h
  | cons q rest ih =>
    intro st hne h
    obtain ⟨name, sess⟩ := q
    simp only [storeScoped]
    exact ih _ (fun p hp => hne p (by simp [hp]))
      (storeOne_nodectx_keep env e s sess st (hne (name, sess) (by simp)) h)

theorem closeSubnodes_events_resume (env : Env) (scopes : List NodeScope)
    (subs : List (String × NodeSession))
    (H : ∀ p ∈ subs, ∀ ev ∈ (NodeSession.close env none scopes p.2).2,
      ∃ g sent, ev = Event.resume g sent) :
    ∀ ev ∈ (closeSubnodes env scopes subs).2, ∃ g sent, ev = Event.resume g sent := by
  induction subs with
  | nil => simp [closeSubnodes]
  | cons p rest ih =>
    intro ev hmem
    simp only [closeSubnodes, List.mem_append] at hmem
    rcases hmem with hmem | hmem
    · exact H p (by simp) ev hmem
    · exact ih (fun q hq => H q (by simp [hq])) ev hmem

theorem close_none_events_resume (env : Env) (scopes : List NodeScope) :
    ∀ s : NodeSession, ∀ ev ∈ (NodeSession.close env none scopes s).2,
      ∃ g sent, ev = Event.resume g sent := by
  apply NodeSession.my_ind
    (P := fun s => ∀ ev ∈ (NodeSession.close env none scopes s).2,
      ∃ g sent, ev = Event.resume g sent)
  intro nt val subs g IH ev hmem
  rw [NodeSession.close] at hmem
  by_cases hg : closeGuard env nt scopes
  · simp [hg] at hmem
  · simp only [hg, Bool.false_eq_true, if_false] at hmem
    cases g with
    | none => exact closeSubnodes_events_resume env scopes subs IH ev hmem
    | some gen =>
      simp only [List.mem_append] at hmem
      rcases hmem with hmem | hmem
      · exact closeSubnodes_events_resume env scopes subs IH ev hmem
      · simp at hmem
        exact ⟨gen.id, none, hmem⟩

theorem close_events_resume (env : Env) (v : Option Value) (scopes : List NodeScope) :
    ∀ s : NodeSession, ∀ ev ∈ (NodeSession.close env v scopes s).2,
      ∃ g sent, ev = Event.resume g sent := by
  intro s ev hmem
  cases s with
  | mk nt val subs g =>
    rw [NodeSession.close] at hmem
    by_cases hg : closeGuard env nt scopes
    · simp [hg] at hmem
    · simp only [hg, Bool.false_eq_true, if_false] at hmem
      have hsubs : ∀ p ∈ subs, ∀ ev ∈ (NodeSession.close env none scopes p.2).2,
          ∃ g sent, ev = Event.resume g sent :=
        fun p _ => close_none_events_resume env scopes p.2
      cases g with
      | none => exact closeSubnodes_events_resume env scopes subs hsubs ev hmem
      | some gen =>
        simp only [List.mem_append] at hmem
        rcases hmem with hmem | hmem
        · exact closeSubnodes_events_resume env scopes subs hsubs ev hmem
        · simp at hmem
          exact ⟨gen.id, v, hmem⟩

theorem closeSessionList_events_resume (env : Env) (v : Option Value)
    (scopes : List NodeScope) :
    ∀ l : List (String × NodeSession), ∀ ev ∈ (closeSessionList env v scopes l).2,
      ∃ g sent, ev = Event.resume g sent := by
  intro l
  induction l with
  | nil => simp [closeSessionList]
  | cons p rest ih =>
    intro ev hmem
    simp only [closeSessionList, List.mem_append] at hmem
    rcases hmem with hmem | hmem
    · exact close_events_resume env v scopes p.2 ev hmem
    · exact ih ev hmem

theorem count_resume_zero (e : NodeId) (evs : List Event)
    (h : ∀ ev ∈ evs, ∃ g sent, ev = Event.resume g sent) :
    evs.count (Event.compose e) = 0 := by
  rw [List.count_eq_zero]
  intro hmem
  obtain ⟨g, sent, hgs⟩ := h _ hmem
  cases hgs

/-- Once a session for PER_EVENT node `e` sits in the per-event store, a
whole compose_nodes call leaves that entry in place and never invokes
the producer of `e` again (the count of its `compose` events in the
trace is unchanged). -/
theorem composeNodes_perEvent_keep (env : Env) (e : NodeId) (s : NodeSession)
    (hsc : scopeOfNode env e = some NodeScope.per_event)
    (fuel : Nat) (nodes : List (String × NodeId)) (anns : List (String × Nat))
    (st : St) (h : lookupBy st.node_ctx e = some s) :
    lookupBy (compose_nodes env fuel nodes anns st).2.node_ctx e = some s ∧
    (compose_nodes env fuel nodes anns st).2.trace.count (Event.compose e)
      = st.trace.count (Event.compose e) := by
  have htasks := partition_tasks_ne env e s hsc nodes st.node_ctx st.global_store h
  obtain ⟨hr1, hr2⟩ := runTasks_keep env fuel e s
    (partitionNodes env nodes st.node_ctx st.global_store).2 st htasks h
  have hprod : ∀ p ∈ extractOk (runTasks env fuel
      (partitionNodes env nodes st.node_ctx st.global_store).2 st).1,
      ∀ nt, p.2.node_type = some nt → nt ≠ e := by
    intro p hp nt hnt
    obtain ⟨q, hq1, hq2⟩ := runTasks_result_types env fuel
      (partitionNodes env nodes st.node_ctx st.global_store).2 st
      (p.1, Except.ok p.2) (extractOk_mem _ p hp) p.2 rfl
    rw [hnt] at hq2
    cases hq2
    exact htasks q hq1
  simp only [compose_nodes]
  split
  · exact ⟨hr1, hr2⟩
  · constructor
    · exact hr1
    · simp only [pushEvents]
      rw [count_compose_append_of_no_compose]
      · exact hr2
      · intro ev hmem n
        obtain ⟨g, sent, hgs⟩ :=
          closeSessionList_events_resume env none [NodeScope.per_call] _ ev hmem
        simp [hgs]
  · have hst2a := storeScoped_nodectx_keep env e s
      (extractOk (runTasks env fuel
        (partitionNodes env nodes st.node_ctx st.global_store).2 st).1)
      (runTasks env fuel (partitionNodes env nodes st.node_ctx st.global_store).2 st).2
      hprod hr1
    have hst2b := storeScoped_trace env
      (extractOk (runTasks env fuel
        (partitionNodes env nodes st.node_ctx st.global_store).2 st).1)
      (runTasks env fuel (partitionNodes env nodes st.node_ctx st.global_store).2 st).2
    split
    · exact ⟨hst2a, by rw [hst2b]; exact hr2⟩
    · rename_i a arest
      obtain ⟨_, han1, _, _, han4⟩ := runAnnTasks_state env (a :: arest)
        (storeScoped env
          (extractOk (runTasks env fuel
            (partitionNodes env nodes st.node_ctx st.global_store).2 st).1)
          (runTasks env fuel (partitionNodes env nodes st.node_ctx st.global_store).2 st).2)
      have hannctx : lookupBy (runAnnTasks env (a :: arest)
          (storeScoped env
            (extractOk (runTasks env fuel
              (partitionNodes env nodes st.node_ctx st.global_store).2 st).1)
            (runTasks env fuel
              (partitionNodes env nodes st.node_ctx st.global_store).2 st).2)).2.node_ctx e
          = some s := by
        rw [han1]
        exact hst2a
      have hanncount : (runAnnTasks env (a :: arest)
          (storeScoped env
            (extractOk (runTasks env fuel
              (partitionNodes env nodes st.node_ctx st.global_store).2 st).1)
            (runTasks env fuel
              (partitionNodes env nodes st.node_ctx st.global_store).2 st).2)).2.trace.count
            (Event.compose e)
          = st.trace.count (Event.compose e) := by
        rw [han4, count_compose_append_of_no_compose, hst2b]
        · exact hr2
        · intro ev hmem n
          simp only [List.mem_map] at hmem
          obtain ⟨q, _, hq⟩ := hmem
          simp [hq.symm]
      split
      · exact ⟨hannctx, hanncount⟩
      · constructor
        · exact hannctx
        · simp only [pushEvents]
          rw [count_compose_append_of_no_compose]
          · exact hanncount
          · intro ev hmem n
            obtain ⟨g, sent, hgs⟩ :=
              closeSessionList_events_resume env none [NodeScope.per_call] _ ev hmem
            simp [hgs]
      · exact ⟨hannctx, hanncount⟩

/-- A top-level request for a node whose session is already cached (the
per-event store for PER_EVENT, the `_value` attribute for GLOBAL) is
answered with exactly the cached session in the returned collection. -/
theorem composeNodes_cached_hit (env : Env) (e : NodeId) (s : NodeSession)
    (name : String) (fuel : Nat) (nodes : List (String × NodeId))
    (anns : List (String × Nat)) (st : St) (coll : NodeCollection) (st' : St)
    (hcase : (scopeOfNode env e = some NodeScope.per_event ∧
        lookupBy st.node_ctx e = some s) ∨
      (scopeOfNode env e = some NodeScope.global ∧
        lookupBy st.global_store e = some s))
    (hn : lookupBy nodes name = some e)
    (hres : compose_nodes env fuel nodes anns st = (.ok (some coll), st')) :
    lookupBy coll.sessions name = some s := by
  have hcached := partition_cached_lookup env e s name nodes st.node_ctx
    st.global_store hn hcase
  simp only [compose_nodes] at hres
  split at hres
  · cases hres
  · simp only [Prod.mk.injEq] at hres
    cases hres.1
  · split at hres
    · simp only [Prod.mk.injEq, Except.ok.injEq, Option.some.injEq] at hres
      rw [hres.1.symm]
      exact lookupBy_append_some _ _ name s hcached
    · split at hres
      · cases hres
      · simp only [Prod.mk.injEq] at hres
        cases hres.1
      · simp only [Prod.mk.injEq, Except.ok.injEq, Option.some.injEq] at hres
        rw [hres.1.symm]
        exact lookupBy_append_some _ _ name s
          (lookupBy_append_some _ _ name s hcached)

/-- Environment refuting claim C1 as stated: node 0's producer raises an
exception that is neither ComposeError nor UnwrapError. -/
def envC1x : Env :=
  ⟨fun _ => ⟨some NodeScope.per_call, [], [], false, 0, fun _ => .error (.other 7)⟩,
   fun _ => .ok 0⟩

/-- Counterexample to claim C1: when a producer raises an exception
other than ComposeError or UnwrapError, compose_nodes does not return
the failure outcome None — the exception propagates out of the call
(run_node_composers suppresses only ComposeError and UnwrapError). -/
theorem claim_C1_cex :
    (compose_nodes envC1x 5 [("a", 0)] [] St.empty).1 = .error (.other 7) ∧
    (compose_nodes envC1x 5 [("a", 0)] [] St.empty).1 ≠ .ok none := by
  refine ⟨rfl, ?_⟩
  intro h
  have hx : (compose_nodes envC1x 5 [("a", 0)] [] St.empty).1 = .error (.other 7) := rfl
  rw [hx] at h
  cases h

/-- Claim C1 as amended: if the first failure among the node-production
tasks is a ComposeError or an UnwrapError, compose_nodes returns None,
and any other first failure propagates out of compose_nodes as that
very exception; the same dichotomy holds at the context-annotation
stage (when every node task succeeded and the first failure among the
annotation tasks is a ComposeError or UnwrapError the call returns
None, and any other annotation failure propagates) — so no collection
is handed to the handler on any failure; and a NodeCollection is
returned precisely when every node task and every context-annotation
task succeeded. -/
theorem claim_C1_amended (env : Env) (fuel : Nat) (nodes : List (String × NodeId))
    (anns : List (String × Nat)) (st : St) :
    (∀ er, firstErr ((runTasks env fuel
        (partitionNodes env nodes st.node_ctx st.global_store).2 st).1.map Prod.snd)
        = some er →
      ((er = Exc.composeError ∨ er = Exc.unwrapError) →
        (compose_nodes env fuel nodes anns st).1 = .ok none) ∧
      (er ≠ Exc.composeError → er ≠ Exc.unwrapError →
        (compose_nodes env fuel nodes anns st).1 = .error er)) ∧
    (∀ er, firstErr ((runTasks env fuel
        (partitionNodes env nodes st.node_ctx st.global_store).2 st).1.map Prod.snd)
        = none →
      firstErr ((runAnnTasks env anns (storeScoped env
          (extractOk (runTasks env fuel
            (partitionNodes env nodes st.node_ctx st.global_store).2 st).1)
          (runTasks env fuel
            (partitionNodes env nodes st.node_ctx st.global_store).2 st).2)).1.map
          Prod.snd) = some er →
      ((er = Exc.composeError ∨ er = Exc.unwrapError) →
        (compose_nodes env fuel nodes anns st).1 = .ok none) ∧
      (er ≠ Exc.composeError → er ≠ Exc.unwrapError →
        (compose_nodes env fuel nodes anns st).1 = .error er)) ∧
    ((∃ coll, (compose_nodes env fuel nodes anns st).1 = .ok (some coll)) ↔
      (firstErr ((runTasks env fuel
          (partitionNodes env nodes st.node_ctx st.global_store).2 st).1.map Prod.snd)
          = none ∧
       firstErr ((runAnnTasks env anns (storeScoped env
          (extractOk (runTasks env fuel
            (partitionNodes env nodes st.node_ctx st.global_store).2 st).1)
          (runTasks env fuel
            (partitionNodes env nodes st.node_ctx st.global_store).2 st).2)).1.map
          Prod.snd) = none)) := by
  constructor
  · intro er her
    constructor
    · intro hcu
      rcases hcu with rfl | rfl <;>
        simp only [compose_nodes, run_node_composers, her]
    · intro h1 h2
      cases er with
      | composeError => exact absurd rfl h1
      | unwrapError => exact absurd rfl h2
      | fuelError => simp only [compose_nodes, run_node_composers, her]
      | other c => simp only [compose_nodes, run_node_composers, her]
  constructor
  · intro er hfe her
    cases anns with
    | nil =>
      exfalso
      simp [runAnnTasks, firstErr] at her
    | cons a arest =>
      constructor
      · intro hcu
        rcases hcu with rfl | rfl <;>
          simp only [compose_nodes, run_node_composers, hfe, her]
      · intro h1 h2
        cases er with
        | composeError => exact absurd rfl h1
        | unwrapError => exact absurd rfl h2
        | fuelError => simp only [compose_nodes, run_node_composers, hfe, her]
        | other c => simp only [compose_nodes, run_node_composers, hfe, her]
  constructor
  · rintro ⟨coll, hres⟩
    simp only [compose_nodes] at hres
    cases hfe : firstErr ((runTasks env fuel
        (partitionNodes env nodes st.node_ctx st.global_store).2 st).1.map Prod.snd) with
    | some er =>
      simp only [run_node_composers, hfe] at hres
      cases er <;> cases hres
    | none =>
      simp only [run_node_composers, hfe] at hres
      refine ⟨rfl, ?_⟩
      cases anns with
      | nil => rfl
      | cons a arest =>
        cases hfa : firstErr ((runAnnTasks env (a :: arest) (storeScoped env
            (extractOk (runTasks env fuel
              (partitionNodes env nodes st.node_ctx st.global_store).2 st).1)
            (runTasks env fuel
              (partitionNodes env nodes st.node_ctx st.global_store).2 st).2)).1.map
            Prod.snd) with
        | some er =>
          simp only [run_node_composers, hfa] at hres
          cases er <;> cases hres
        | none => rfl
  · rintro ⟨hfe, hfa⟩
    simp only [compose_nodes, run_node_composers, hfe]
    cases anns with
    | nil => exact ⟨_, rfl⟩
    | cons a arest =>
      simp only [run_node_composers, hfa]
      exact ⟨_, rfl⟩

/-- Environment for the C1 witness: the single requested node raises
ComposeError. -/
def envC1w : Env :=
  ⟨fun _ => ⟨some NodeScope.per_call, [], [], false, 0, fun _ => .error .composeError⟩,
   fun _ => .ok 0⟩

/-- Environment for the annotation half of the C1 witness: the node
succeeds, but every context lookup raises UnwrapError. -/
def envC1w2 : Env :=
  ⟨fun _ => ⟨some NodeScope.per_call, [], [], false, 0, fun _ => .ok 1⟩,
   fun _ => .error .unwrapError⟩

/-- Concrete witness for the amended claim C1: a ComposeError-failing
node production makes compose_nodes return None, and so does an
UnwrapError-failing context-annotation lookup after all node tasks
succeeded. -/
theorem claim_C1_witness :
    (compose_nodes envC1w 5 [("a", 0)] [] St.empty).1 = .ok none ∧
    (compose_nodes envC1w2 5 [("a", 0)] [("k", 3)] St.empty).1 = .ok none :=
  ⟨((claim_C1_amended envC1w 5 [("a", 0)] [] St.empty).1 Exc.composeError rfl).1
      (Or.inl rfl),
   ((claim_C1_amended envC1w2 5 [("a", 0)] [("k", 3)] St.empty).2.1 Exc.unwrapError
      rfl rfl).1 (Or.inr rfl)⟩

/-- Environment exhibiting the C2 bug: node 0 is a generator node that
succeeds (opening a resumable handle), node 1 raises ComposeError. -/
def envC2x : Env :=
  ⟨fun i =>
    if i = 0 then ⟨some NodeScope.per_call, [], [], true, 0, fun _ => .ok 1⟩
    else ⟨some NodeScope.per_call, [], [], false, 0, fun _ => .error .composeError⟩,
   fun _ => .ok 0⟩

/-- Claim C2 at its failing input: requesting node 0 (a generator that
succeeds and opens handle 0) together with node 1 (which raises
ComposeError), compose_nodes returns the failure outcome None with a
generator opened (next_gen = 1) yet the trace holds no resume event at
all: the session produced by the completed task was never closed.  The
cleanup call on the failure path closes only the cache-hit sessions
collected before the tasks ran (none here; and cache hits are
PER_EVENT/GLOBAL, which the default close skips), never the sessions
of completed tasks, which are dropped without finalization. -/
theorem claim_C2_bug :
    (compose_nodes envC2x 5 [("a", 0), ("b", 1)] [] St.empty).1 = .ok none ∧
    (compose_nodes envC2x 5 [("a", 0), ("b", 1)] [] St.empty).2.next_gen = 1 ∧
    (compose_nodes envC2x 5 [("a", 0), ("b", 1)] [] St.empty).2.trace
      = [Event.compose 0, Event.compose 1] ∧
    ∀ g sent, Event.resume g sent
      ∉ (compose_nodes envC2x 5 [("a", 0), ("b", 1)] [] St.empty).2.trace := by
  refine ⟨rfl, rfl, rfl, ?_⟩
  intro g sent hmem
  have hx : (compose_nodes envC2x 5 [("a", 0), ("b", 1)] [] St.empty).2.trace
      = [Event.compose 0, Event.compose 1] := rfl
  rw [hx] at hmem
  simp at hmem

/-- Environment refuting claim C3 as stated: node 0 is PER_EVENT and a
generator. -/
def envC3x : Env :=
  ⟨fun _ => ⟨some NodeScope.per_event, [], [], true, 0, fun _ => .ok 5⟩,
   fun _ => .ok 0⟩

/-- Counterexample to claim C3: two top-level requests for the same
PER_EVENT node type within one compose_nodes call each run the
producer (two compose events for node 0) and receive two different
sessions (distinct generator handles) — the per-event store is
consulted before any task runs and written only after all complete. -/
theorem claim_C3_cex :
    (compose_nodes envC3x 5 [("a", 0), ("b", 0)] [] St.empty).2.trace.count
        (Event.compose 0) = 2 ∧
    (compose_nodes envC3x 5 [("a", 0), ("b", 0)] [] St.empty).1
      = .ok (some ⟨[("a", .mk (some 0) 5 [] (some ⟨0, 0⟩)),
                    ("b", .mk (some 0) 5 [] (some ⟨1, 0⟩))]⟩) ∧
    (NodeSession.mk (some 0) 5 [] (some ⟨0, 0⟩)).generator
      ≠ (NodeSession.mk (some 0) 5 [] (some ⟨1, 0⟩)).generator := by
  refine ⟨rfl, rfl, ?_⟩
  simp [NodeSession.generator]

/-- Claim C3 as amended: once a session for a PER_EVENT node type is in
the per-event store, a compose_nodes call leaves the entry in place,
never invokes that node's producer again (as a top-level request or as
a sub-node anywhere in the graph), and answers every top-level request
for it with exactly the stored session.  (Before the store is first
written, however, multiple top-level requests for the type within one
call each produce independently, as the counterexample shows.) -/
theorem claim_C3_amended (env : Env) (e : NodeId) (s : NodeSession)
    (fuel : Nat) (nodes : List (String × NodeId)) (anns : List (String × Nat))
    (st : St) (name : String)
    (hsc : scopeOfNode env e = some NodeScope.per_event)
    (h : lookupBy st.node_ctx e = some s) :
    lookupBy (compose_nodes env fuel nodes anns st).2.node_ctx e = some s ∧
    (compose_nodes env fuel nodes anns st).2.trace.count (Event.compose e)
      = st.trace.count (Event.compose e) ∧
    (∀ coll st', lookupBy nodes name = some e →
      compose_nodes env fuel nodes anns st = (.ok (some coll), st') →
      lookupBy coll.sessions name = some s) :=
  ⟨(composeNodes_perEvent_keep env e s hsc fuel nodes anns st h).1,
   (composeNodes_perEvent_keep env e s hsc fuel nodes anns st h).2,
   fun coll st' hn hres =>
     composeNodes_cached_hit env e s name fuel nodes anns st coll st'
       (Or.inl ⟨hsc, h⟩) hn hres⟩

/-- Environment and pre-populated state for the C3 witness. -/
def envC3w : Env :=
  ⟨fun _ => ⟨some NodeScope.per_event, [], [], false, 0, fun _ => .ok 5⟩,
   fun _ => .ok 0⟩

def sessC3w : NodeSession := .mk (some 0) 5 [] none

def stC3w : St := ⟨[(0, sessC3w)], [], 0, []⟩

/-- Concrete witness for the amended claim C3: with node 0 already in
the per-event store, a call requesting it returns the stored session,
keeps the entry, and runs no producer. -/
theorem claim_C3_witness :
    lookupBy (compose_nodes envC3w 5 [("x", 0)] [] stC3w).2.node_ctx 0 = some sessC3w ∧
    (compose_nodes envC3w 5 [("x", 0)] [] stC3w).2.trace.count (Event.compose 0)
      = stC3w.trace.count (Event.compose 0) ∧
    lookupBy (⟨[("x", sessC3w)]⟩ : NodeCollection).sessions "x" = some sessC3w :=
  ⟨(claim_C3_amended envC3w 0 sessC3w 5 [("x", 0)] [] stC3w "x" rfl rfl).1,
   (claim_C3_amended envC3w 0 sessC3w 5 [("x", 0)] [] stC3w "x" rfl rfl).2.1,
   (claim_C3_amended envC3w 0 sessC3w 5 [("x", 0)] [] stC3w "x" rfl rfl).2.2
     ⟨[("x", sessC3w)]⟩ (compose_nodes envC3w 5 [("x", 0)] [] stC3w).2 rfl rfl⟩

/-- Claim C10: the per-event store is not rolled back on failure.  If a
compose_nodes call failed (returned None) and left a session for
PER_EVENT node `e` in the per-event store — which happens exactly when
`e` was resolved as a sub-node before the failure, since the failing
call's cleanup never removes store entries — then a later resolution in
the same event keeps the entry, reuses the stored session for any
top-level request of `e`, and does not run `e`'s producer again. -/
theorem claim_C10 (env : Env) (e : NodeId) (s : NodeSession)
    (fuel1 fuel2 : Nat) (nodes1 nodes2 : List (String × NodeId))
    (anns1 anns2 : List (String × Nat)) (st st1 : St) (name : String)
    (hsc : scopeOfNode env e = some NodeScope.per_event)
    (hfail : compose_nodes env fuel1 nodes1 anns1 st = (.ok none, st1))
    (hentry : lookupBy st1.node_ctx e = some s) :
    lookupBy (compose_nodes env fuel2 nodes2 anns2 st1).2.node_ctx e = some s ∧
    (compose_nodes env fuel2 nodes2 anns2 st1).2.trace.count (Event.compose e)
      = st1.trace.count (Event.compose e) ∧
    (∀ coll st2, lookupBy nodes2 name = some e →
      compose_nodes env fuel2 nodes2 anns2 st1 = (.ok (some coll), st2) →
      lookupBy coll.sessions name = some s) :=
  ⟨(composeNodes_perEvent_keep env e s hsc fuel2 nodes2 anns2 st1 hentry).1,
   (composeNodes_perEvent_keep env e s hsc fuel2 nodes2 anns2 st1 hentry).2,
   fun coll st2 hn hres =>
     composeNodes_cached_hit env e s name fuel2 nodes2 anns2 st1 coll st2
       (Or.inl ⟨hsc, hentry⟩) hn hres⟩

/-- Environment for the C10 witness: PER_EVENT node 0 succeeds, node 1
depends on it and then raises ComposeError. -/
def envC10w : Env :=
  ⟨fun i =>
    if i = 0 then ⟨some NodeScope.per_event, [], [], false, 0, fun _ => .ok 7⟩
    else ⟨some NodeScope.per_call, [("e", 0)], [], false, 0, fun _ => .error .composeError⟩,
   fun _ => .ok 0⟩

def sessC10w : NodeSession := .mk (some 0) 7 [] none

/-- The state left by the failed first call of the C10 witness: node 0
was produced as a sub-node and cached before node 1's producer raised. -/
def stC10w : St := ⟨[(0, sessC10w)], [], 0, [Event.compose 0, Event.compose 1]⟩

/-- Concrete witness for claim C10: the first call fails with None yet
caches node 0's session; a second call requesting node 0 reuses it
without production. -/
theorem claim_C10_witness :
    lookupBy (compose_nodes envC10w 5 [("x", 0)] [] stC10w).2.node_ctx 0
      = some sessC10w ∧
    (compose_nodes envC10w 5 [("x", 0)] [] stC10w).2.trace.count (Event.compose 0)
      = stC10w.trace.count (Event.compose 0) ∧
    lookupBy (⟨[("x", sessC10w)]⟩ : NodeCollection).sessions "x" = some sessC10w :=
  ⟨(claim_C10 envC10w 0 sessC10w 5 5 [("p", 1)] [("x", 0)] [] [] St.empty stC10w "x"
      rfl rfl rfl).1,
   (claim_C10 envC10w 0 sessC10w 5 5 [("p", 1)] [("x", 0)] [] [] St.empty stC10w "x"
      rfl rfl rfl).2.1,
   (claim_C10 envC10w 0 sessC10w 5 5 [("p", 1)] [("x", 0)] [] [] St.empty stC10w "x"
      rfl rfl rfl).2.2 ⟨[("x", sessC10w)]⟩
      (compose_nodes envC10w 5 [("x", 0)] [] stC10w).2 rfl rfl⟩

theorem resolveSubnodes_global (env : Env)
    (rec : NodeId → St → Except Exc NodeSession × St)
    (hrec : ∀ n st, (rec n st).2.global_store = st.global_store) :
    ∀ (subs : List (String × NodeId)) (st : St),
      (resolveSubnodes env rec subs st).2.global_store = st.global_store := by
  intro subs
  induction subs with
  | nil => exact fun st => rfl
  | cons p rest ih =>
    intro st
    obtain ⟨name, sub⟩ := p
    simp only [resolveSubnodes]
    cases hl : lookupBy st.node_ctx sub with
    | some sess => exact ih st
    | none =>
      cases hres : (rec sub st).1 with
      | error err => exact hrec sub st
      | ok sess =>
        by_cases hpe : scopeOfNode env sub = some NodeScope.per_event
        · simp only [hpe, if_pos rfl]
          exact (ih _).trans (hrec sub st)
        · simp only [if_neg hpe]
          exact (ih _).trans (hrec sub st)

theorem compose_node_global (env : Env) :
    ∀ (fuel : Nat) (n : NodeId) (st : St),
      (compose_node env fuel n st).2.global_store = st.global_store := by
  intro fuel
  induction fuel with
  | zero => exact fun n st => rfl
  | succ fuel ih =>
    intro n st
    have hs := resolveSubnodes_global env (compose_node env fuel) ih
      (env.nodes n).sub_nodes st
    have ha := ((resolveCtxKeys_state env (env.nodes n).context_keys
      (resolveSubnodes env (compose_node env fuel) (env.nodes n).sub_nodes st).2).2.1).trans hs
    simp only [compose_node]
    split
    · exact hs
    · split
      · exact ha
      · split
        · exact ha
        · split
          · exact ha
          · exact ha

theorem runTasks_global (env : Env) (fuel : Nat) :
    ∀ (tasks : List (String × NodeId)) (st : St),
      (runTasks env fuel tasks st).2.global_store = st.global_store := by
  intro tasks
  induction tasks with
  | nil => exact fun st => rfl
  | cons q rest ih =>
    intro st
    obtain ⟨name, nt⟩ := q
    simp only [runTasks]
    exact (ih _).trans (compose_node_global env fuel nt st)

theorem run_node_composers_ok_true {α : Type} (l : List (Except Exc α))
    (h : run_node_composers l = .ok true) : firstErr l = none := by
  cases hfe : firstErr l with
  | none => rfl
  | some er =>
    rw [run_node_composers, hfe] at h
    cases er <;> simp at h

theorem firstErr_none_ok {α : Type} :
    ∀ l : List (Except Exc α), firstErr l = none → ∀ x ∈ l, ∃ a, x = .ok a := by
  intro l
  induction l with
  | nil => simp
  | cons r rest ih =>
    intro h x hx
    cases r with
    | ok a =>
      simp only [firstErr] at h
      rcases List.mem_cons.mp hx with hx | hx
      · exact ⟨a, hx⟩
      · exact ih h x hx
    | error e => simp [firstErr] at h

theorem partition_miss_mem (env : Env) (e : NodeId) (name : String)
    (hsc : scopeOfNode env e = some NodeScope.global) :
    ∀ (nodes : List (String × NodeId)) (nctx gstore : List (NodeId × NodeSession)),
      lookupBy nodes name = some e → lookupBy gstore e = none →
      (name, e) ∈ (partitionNodes env nodes nctx gstore).2 := by
  intro nodes
  induction nodes with
  | nil => intro nctx gstore h _; simp [lookupBy] at h
  | cons q rest ih =>
    intro nctx gstore h hmiss
    obtain ⟨k, nt⟩ := q
    by_cases hk : k = name
    · subst hk
      simp only [lookupBy, if_pos rfl] at h
      cases h
      simp only [partitionNodes, hsc, hmiss]
      simp
    · rw [lookupBy_cons_ne _ _ _ _ hk] at h
      have htail := ih nctx gstore h hmiss
      simp only [partitionNodes]
      cases hscn : scopeOfNode env nt with
      | none => exact List.mem_cons_of_mem _ htail
      | some sc =>
        cases sc with
        | per_call => exact List.mem_cons_of_mem _ htail
        | per_event =>
          cases hl : lookupBy nctx nt with
          | some sess => exact htail
          | none => exact List.mem_cons_of_mem _ htail
        | global =>
          cases hl : lookupBy gstore nt with
          | some sess => exact htail
          | none => exact List.mem_cons_of_mem _ htail

theorem runTasks_task_result (env : Env) (fuel : Nat) :
    ∀ (tasks : List (String × NodeId)) (st : St) (nm : String) (nt : NodeId),
      (nm, nt) ∈ tasks →
      ∃ r, (nm, r) ∈ (runTasks env fuel tasks st).1 ∧
        ∀ sess, r = .ok sess → sess.node_type = some nt := by
  intro tasks
  induction tasks with
  | nil => intro st nm nt h; simp at h
  | cons q rest ih =>
    intro st nm nt h
    obtain ⟨name, qt⟩ := q
    rcases List.mem_cons.mp h with h | h
    · cases h
      refine ⟨(compose_node env fuel nt st).1, by simp [runTasks], ?_⟩
      intro sess hsess
      exact compose_node_nodeType env fuel nt st sess hsess
    · obtain ⟨r, hr1, hr2⟩ := ih (compose_node env fuel qt st).2 nm nt h
      exact ⟨r, by simp [runTasks, hr1], hr2⟩

theorem extractOk_mem_of :
    ∀ (l : List (String × Except Exc NodeSession)) (nm : String) (sess : NodeSession),
      (nm, Except.ok sess) ∈ l → (nm, sess) ∈ extractOk l := by
  intro l
  induction l with
  | nil => simp
  | cons q rest ih =>
    intro nm sess h
    obtain ⟨name, r⟩ := q
    cases r with
    | ok a =>
      simp only [extractOk]
      rcases List.mem_cons.mp h with heq | hmem
      · injection heq with h1 h2
        injection h2 with h3
        subst h1
        subst h3
        simp
      · exact List.mem_cons_of_mem _ (ih nm sess hmem)
    | error err =>
      simp only [extractOk]
      rcases List.mem_cons.mp h with heq | hmem
      · injection heq with h1 h2
        cases h2
      · exact ih nm sess hmem

theorem lookupBy_cons_isSome {κ α : Type} [DecidableEq κ] (k key : κ) (v : α)
    (l : List (κ × α)) (h : (lookupBy l key).isSome) :
    (lookupBy ((k, v) :: l) key).isSome := by
  by_cases hk : k = key
  · subst hk; simp [lookupBy]
  · rw [lookupBy_cons_ne _ _ _ _ hk]; exact h

theorem storeOne_global_mono (env : Env) (sess : NodeSession) (st : St)
    (e : NodeId) (h : (lookupBy st.global_store e).isSome) :
    (lookupBy (storeOne env sess st).global_store e).isSome := by
  cases hnt : sess.node_type with
  | none => simpa [storeOne, hnt] using h
  | some nt =>
    cases hsc : scopeOfNode env nt with
    | none => simpa [storeOne, hnt, hsc] using h
    | some sc =>
      cases sc with
      | per_call => simpa [storeOne, hnt, hsc] using h
      | per_event => simpa [storeOne, hnt, hsc] using h
      | global =>
        simp only [storeOne, hnt, hsc]
        exact lookupBy_cons_isSome _ _ _ _ h

theorem storeScoped_global_mono (env : Env) :
    ∀ (l : List (String × NodeSession)) (st : St) (e : NodeId),
      (lookupBy st.global_store e).isSome →
      (lookupBy (storeScoped env l st).global_store e).isSome := by
  intro l
  induction l with
  | nil => exact fun st e h => h
  | cons q rest ih =>
    intro st e h
    obtain ⟨name, sess⟩ := q
    simp only [storeScoped]
    exact ih _ e (storeOne_global_mono env sess st e h)

theorem storeScoped_global_se (env : Env) (e : NodeId)
    (hsc : scopeOfNode env e = some NodeScope.global) :
    ∀ (l : List (String × NodeSession)) (st : St),
      (∃ p ∈ l, p.2.node_type = some e) →
      (lookupBy (storeScoped env l st).global_store e).isSome := by
  intro l
  induction l with
  | nil => intro st h; simp at h
  | cons q rest ih =>
    intro st h
    obtain ⟨name, sess⟩ := q
    simp only [storeScoped]
    obtain ⟨p, hp, hpt⟩ := h
    rcases List.mem_cons.mp hp with hp | hp
    · subst hp
      refine storeScoped_global_mono env rest _ e ?_
      simp only [storeOne, hpt, hsc]
      simp [lookupBy]
    · exact ih _ ⟨p, hp, hpt⟩

theorem storeOne_global_sg (env : Env) (sess : NodeSession) (st : St) (e : NodeId)
    (hinv : ∀ s0, lookupBy st.global_store e = some s0 → s0.node_type = some e) :
    ∀ s', lookupBy (storeOne env sess st).global_store e = some s' →
      s'.node_type = some e := by
  intro s' h
  cases hnt : sess.node_type with
  | none => exact hinv s' (by simpa [storeOne, hnt] using h)
  | some nt =>
    cases hsc : scopeOfNode env nt with
    | none => exact hinv s' (by simpa [storeOne, hnt, hsc] using h)
    | some sc =>
      cases sc with
      | per_call => exact hinv s' (by simpa [storeOne, hnt, hsc] using h)
      | per_event => exact hinv s' (by simpa [storeOne, hnt, hsc] using h)
      | global =>
        simp only [storeOne, hnt, hsc] at h
        by_cases hne : nt = e
        · subst hne
          simp [lookupBy] at h
          rw [h.symm, hnt]
        · rw [lookupBy_cons_ne _ _ _ _ hne] at h
          exact hinv s' h

theorem storeScoped_global_sg (env : Env) (e : NodeId) :
    ∀ (l : List (String × NodeSession)) (st : St),
      (∀ s0, lookupBy st.global_store e = some s0 → s0.node_type = some e) →
      ∀ s', lookupBy (storeScoped env l st).global_store e = some s' →
        s'.node_type = some e := by
  intro l
  induction l with
  | nil => exact fun st hinv => hinv
  | cons q rest ih =>
    intro st hinv s' h
    obtain ⟨name, sess⟩ := q
    simp only [storeScoped] at h
    exact ih _ (storeOne_global_sg env sess st e hinv) s' h

/-- Environment refuting claim C4 as stated: node 0 is GLOBAL, node 1 is
PER_CALL and declares node 0 as a sub-node. -/
def envC4x : Env :=
  ⟨fun i =>
    if i = 0 then ⟨some NodeScope.global, [], [], false, 0, fun _ => .ok 3⟩
    else ⟨some NodeScope.per_call, [("g", 0)], [], false, 0, fun _ => .ok 4⟩,
   fun _ => .ok 0⟩

/-- Counterexample to claim C4: after a first call produced GLOBAL node
0 and cached it in the `_value` store, a second call that needs node 0
as a sub-node of node 1 runs node 0's producer again (two compose
events in total) — compose_node consults only the per-event store for
sub-nodes, never the global cache. -/
theorem claim_C4_cex :
    lookupBy (compose_nodes envC4x 5 [("g0", 0)] [] St.empty).2.global_store 0
      = some (.mk (some 0) 3 [] none) ∧
    (compose_nodes envC4x 5 [("p", 1)] []
        (compose_nodes envC4x 5 [("g0", 0)] [] St.empty).2).2.trace.count
        (Event.compose 0) = 2 :=
  ⟨rfl, rfl⟩

/-- Claim C4 as amended: the GLOBAL cache works only for top-level
requests.  When a cached Session for a GLOBAL node exists, a top-level
request for it in compose_nodes is answered with exactly that cached
session (no task is created for it); and when no cached Session exists,
a successful call that requested the node at top level stores the newly
produced session (carrying that node's identity) in the global cache
before returning.  A GLOBAL node resolved as a sub-node of another node
bypasses this cache entirely, as the counterexample shows. -/
theorem claim_C4_amended (env : Env) (e : NodeId) (fuel : Nat)
    (nodes : List (String × NodeId)) (anns : List (String × Nat)) (st : St)
    (name : String) (hsc : scopeOfNode env e = some NodeScope.global) :
    (∀ s coll st', lookupBy st.global_store e = some s →
      lookupBy nodes name = some e →
      compose_nodes env fuel nodes anns st = (.ok (some coll), st') →
      lookupBy coll.sessions name = some s) ∧
    (∀ coll st', lookupBy st.global_store e = none →
      lookupBy nodes name = some e →
      compose_nodes env fuel nodes anns st = (.ok (some coll), st') →
      ∃ sess, lookupBy st'.global_store e = some sess ∧
        sess.node_type = some e) := by
  constructor
  · intro s coll st' hcache hn hres
    exact composeNodes_cached_hit env e s name fuel nodes anns st coll st'
      (Or.inr ⟨hsc, hcache⟩) hn hres
  · intro coll st' hmiss hn hres
    have hmem := partition_miss_mem env e name hsc nodes st.node_ctx
      st.global_store hn hmiss
    simp only [compose_nodes] at hres
    cases hco : run_node_composers ((runTasks env fuel
        (partitionNodes env nodes st.node_ctx st.global_store).2 st).1.map
        Prod.snd) with
    | error err => rw [hco] at hres; cases hres
    | ok b =>
      cases b with
      | false =>
        rw [hco] at hres
        simp only [Prod.mk.injEq] at hres
        cases hres.1
      | true =>
        rw [hco] at hres
        have hfe := run_node_composers_ok_true _ hco
        obtain ⟨r, hr1, hr2⟩ := runTasks_task_result env fuel
          (partitionNodes env nodes st.node_ctx st.global_store).2 st name e hmem
        obtain ⟨sess, rfl⟩ := firstErr_none_ok _ hfe r
          (List.mem_map_of_mem Prod.snd hr1)
        have hty := hr2 sess rfl
        have hex := extractOk_mem_of _ name sess hr1
        have hrtg : (runTasks env fuel
            (partitionNodes env nodes st.node_ctx st.global_store).2 st).2.global_store
            = st.global_store := runTasks_global env fuel _ st
        have hsome := storeScoped_global_se env e hsc
          (extractOk (runTasks env fuel
            (partitionNodes env nodes st.node_ctx st.global_store).2 st).1)
          (runTasks env fuel
            (partitionNodes env nodes st.node_ctx st.global_store).2 st).2
          ⟨(name, sess), hex, hty⟩
        have hinv : ∀ s0, lookupBy (runTasks env fuel
            (partitionNodes env nodes st.node_ctx st.global_store).2
            st).2.global_store e = some s0 → s0.node_type = some e := by
          intro s0 h0
          rw [hrtg, hmiss] at h0
          cases h0
        have hsg := storeScoped_global_sg env e
          (extractOk (runTasks env fuel
            (partitionNodes env nodes st.node_ctx st.global_store).2 st).1)
          (runTasks env fuel
            (partitionNodes env nodes st.node_ctx st.global_store).2 st).2 hinv
        obtain ⟨sess2, hsess2⟩ := Option.isSome_iff_exists.mp hsome
        cases anns with
        | nil =>
          simp only [Prod.mk.injEq] at hres
          rw [hres.2.symm]
          exact ⟨sess2, hsess2, hsg sess2 hsess2⟩
        | cons a arest =>
          have hag := (runAnnTasks_state env (a :: arest)
            (storeScoped env (extractOk (runTasks env fuel
              (partitionNodes env nodes st.node_ctx st.global_store).2 st).1)
            (runTasks env fuel
              (partitionNodes env nodes st.node_ctx st.global_store).2 st).2)).2.2.1
          cases hco2 : run_node_composers ((runAnnTasks env (a :: arest)
              (storeScoped env (extractOk (runTasks env fuel
                (partitionNodes env nodes st.node_ctx st.global_store).2 st).1)
              (runTasks env fuel
                (partitionNodes env nodes st.node_ctx st.global_store).2
                st).2)).1.map Prod.snd) with
          | error err => rw [hco2] at hres; cases hres
          | ok b2 =>
            cases b2 with
            | false =>
              rw [hco2] at hres
              simp only [Prod.mk.injEq] at hres
              cases hres.1
            | true =>
              rw [hco2] at hres
              simp only [Prod.mk.injEq] at hres
              rw [hres.2.symm, hag]
              exact ⟨sess2, hsess2, hsg sess2 hsess2⟩

/-- Environment and state for the C4 witness: GLOBAL node 0 with a free
cache; a call requesting it stores the produced session. -/
def envC4w : Env :=
  ⟨fun _ => ⟨some NodeScope.global, [], [], false, 0, fun _ => .ok 3⟩,
   fun _ => .ok 0⟩

/-- Concrete witness for the amended claim C4: a successful top-level
request for GLOBAL node 0 on a cold cache leaves a session for node 0
in the global cache. -/
theorem claim_C4_witness :
    ∃ sess, lookupBy (compose_nodes envC4w 5 [("g", 0)] [] St.empty).2.global_store 0
        = some sess ∧ sess.node_type = some 0 :=
  (claim_C4_amended envC4w 0 5 [("g", 0)] [] St.empty "g" rfl).2
    ⟨[("g", .mk (some 0) 3 [] none)]⟩
    (compose_nodes envC4w 5 [("g", 0)] [] St.empty).2 rfl rfl rfl
